import Mathlib

/-!
# kinesis-admin: the HTTP handlers of `handler.go`

A shallow embedding of the five handlers of `KinesisHandler` (`handler.go`) and
theorems about them.

Modelling conventions.

* A Go `string` and a Go `[]byte` are both a Lean `String`; the conversions
  `[]byte(s)` and `string(b)` are the identity on the bytes they carry.
* A Go `*string` is an `Option String` (`nil` is `none`); `aws.String` is `some`
  and `aws.ToString` maps `nil` to `""`.
* A Go `int` is an `Int`.  The only arithmetic of the handlers is one division by
  a positive slice length, comparisons, and a counter bounded by a slice length,
  so no operation can leave the 64-bit range.
* A Go `error` is a `GoError` carrying the text of `Error()`.
* A handler returns the Go pair `(httpserver.Response, error)`, each component
  possibly `nil`, together with the trace of the upstream calls it made.
* The upstream client `gosoKinesis.Client` is an interface of a library outside
  this repository.  It is a parameter: each method is an arbitrary function of the
  request and of the history of the calls made so far (with their results), which
  covers stateful clients.  When a method returns a `nil` error its output
  pointer is taken to be non-nil, as the SDK guarantees.
* The unbounded `for` loop of `ListStreams` takes a fuel argument; `none` means
  the fuel ran out.
-/

namespace KinesisAdmin

/-- A Go `error`, identified with the text that `Error()` returns. -/
structure GoError where
  msg : String
deriving DecidableEq, Repr

/-! ## The parts of the AWS SDK the handlers touch -/

namespace aws

/-- Go `aws.ToString`: dereference a `*string`, with `nil` read as `""`. -/
def ToString : Option String → String
  | none => ""
  | some s => s

end aws

namespace kinesis

structure ListStreamsInput where
  NextToken : Option String
deriving DecidableEq, Repr

structure ListStreamsOutput where
  StreamNames : List String
  NextToken : Option String
deriving DecidableEq, Repr

structure DeleteStreamInput where
  StreamName : Option String
deriving DecidableEq, Repr

structure DeleteStreamOutput where
deriving DecidableEq, Repr

structure DescribeStreamInput where
  StreamName : Option String
deriving DecidableEq, Repr

structure Shard where
  ShardId : Option String
deriving DecidableEq, Repr

structure StreamDescription where
  StreamName : Option String
  StreamARN : Option String
  StreamStatus : String
  RetentionPeriodHours : Option Int
  Shards : List Shard
  EncryptionType : String
deriving DecidableEq, Repr

structure DescribeStreamOutput where
  StreamDescription : StreamDescription
deriving DecidableEq, Repr

structure GetShardIteratorInput where
  StreamName : Option String
  ShardId : Option String
  ShardIteratorType : String
deriving DecidableEq, Repr

structure GetShardIteratorOutput where
  ShardIterator : Option String
deriving DecidableEq, Repr

structure GetRecordsInput where
  ShardIterator : Option String
deriving DecidableEq, Repr

structure Record where
  PartitionKey : Option String
  SequenceNumber : Option String
  ApproximateArrivalTimestamp : Option Int
  Data : String
deriving DecidableEq, Repr

structure GetRecordsOutput where
  Records : List Record
  NextShardIterator : Option String
deriving DecidableEq, Repr

structure PutRecordInput where
  StreamARN : Option String
  PartitionKey : Option String
  Data : String
deriving DecidableEq, Repr

structure PutRecordOutput where
  ShardId : Option String
  SequenceNumber : Option String
deriving DecidableEq, Repr

end kinesis

/-- One call to the upstream client: the request sent and the result received. -/
inductive Event where
  | listStreams (input : kinesis.ListStreamsInput)
      (out : Except GoError kinesis.ListStreamsOutput)
  | deleteStream (input : kinesis.DeleteStreamInput)
      (out : Except GoError kinesis.DeleteStreamOutput)
  | describeStream (input : kinesis.DescribeStreamInput)
      (out : Except GoError kinesis.DescribeStreamOutput)
  | getShardIterator (input : kinesis.GetShardIteratorInput)
      (out : Except GoError kinesis.GetShardIteratorOutput)
  | getRecords (input : kinesis.GetRecordsInput)
      (out : Except GoError kinesis.GetRecordsOutput)
  | putRecord (input : kinesis.PutRecordInput)
      (out : Except GoError kinesis.PutRecordOutput)

/-- The interface `gosoKinesis.Client`, as far as the handlers use it.  Every
method sees the history of the calls made before it. -/
structure Client where
  ListStreams : List Event → kinesis.ListStreamsInput →
    Except GoError kinesis.ListStreamsOutput
  DeleteStream : List Event → kinesis.DeleteStreamInput →
    Except GoError kinesis.DeleteStreamOutput
  DescribeStream : List Event → kinesis.DescribeStreamInput →
    Except GoError kinesis.DescribeStreamOutput
  GetShardIterator : List Event → kinesis.GetShardIteratorInput →
    Except GoError kinesis.GetShardIteratorOutput
  GetRecords : List Event → kinesis.GetRecordsInput →
    Except GoError kinesis.GetRecordsOutput
  PutRecord : List Event → kinesis.PutRecordInput →
    Except GoError kinesis.PutRecordOutput

/-! ## The handler inputs and responses -/

structure DeleteStreamInput where
  StreamName : String
deriving DecidableEq, Repr

structure DescribeStreamInput where
  StreamName : String
deriving DecidableEq, Repr

structure LatestMessagesInput where
  StreamName : String
  Limit : Int
deriving DecidableEq, Repr

structure PublishMessageInput where
  StreamARN : String
  PartitionKey : String
  Data : String
deriving DecidableEq, Repr

/-- One element of the `records` list of the `LatestMessages` response: the map
with keys `shardId`, `partitionKey`, `sequenceNumber`,
`approximateArrivalTimestamp` and `dataBase64`. -/
structure MessageRecord where
  shardId : Option String
  partitionKey : Option String
  sequenceNumber : Option String
  approximateArrivalTimestamp : Option Int
  dataBase64 : String
deriving DecidableEq, Repr

/-- The JSON bodies passed to `httpserver.NewJsonResponse`, one constructor for
each map literal of `handler.go`. -/
inductive Response where
  | streams (streams : List String) (count : Int)
  | deleted (status : String) (stream : String)
  | description (streamName : Option String) (streamArn : String) (status : String)
      (retentionHours : Option Int) (shardCount : Int) (encryptionType : String)
  | messages (records : List MessageRecord) (count : Int) (shards : Int)
  | published (shardId : Option String) (sequenceNumber : Option String)
      (partitionKey : String)
deriving DecidableEq, Repr

/-- What a handler hands back: the Go pair `(httpserver.Response, error)` and the
upstream calls made, oldest first. -/
structure HandlerResult where
  resp : Option Response
  err : Option GoError
  trace : List Event

/-- Go `type KinesisHandler struct { client gosoKinesis.Client }`. -/
structure KinesisHandler where
  client : Client

namespace KinesisHandler

/-- The `for` loop of `ListStreams` (handler.go 58-71), entered with the calls
made so far, the request under construction and the names gathered in `all`. -/
def listStreamsLoop (h : KinesisHandler) :
    Nat → List Event → kinesis.ListStreamsInput → List String → Option HandlerResult
  | 0, _, _, _ => none
  | fuel + 1, tr, input, all =>
    let out := h.client.ListStreams tr input
    let tr1 := tr ++ [Event.listStreams input out]
    match out with
    | .error err => some ⟨none, some err, tr1⟩
    | .ok o =>
      let all1 := all ++ o.StreamNames
      match o.NextToken with
      | none => some ⟨some (Response.streams all1 all1.length), none, tr1⟩
      | some t => listStreamsLoop h fuel tr1 ⟨some t⟩ all1

/-- Go `ListStreams` (handler.go 53-77). -/
def ListStreams (h : KinesisHandler) (fuel : Nat) : Option HandlerResult :=
  listStreamsLoop h fuel [] ⟨none⟩ []

/-- Go `DeleteStream` (handler.go 80-89). -/
def DeleteStream (h : KinesisHandler) (inp : Option DeleteStreamInput) : HandlerResult :=
  match inp with
  | none => ⟨none, some ⟨"streamName required"⟩, []⟩
  | some i =>
    if i.StreamName = "" then ⟨none, some ⟨"streamName required"⟩, []⟩
    else
      let req : kinesis.DeleteStreamInput := ⟨some i.StreamName⟩
      let out := h.client.DeleteStream [] req
      let tr := [Event.deleteStream req out]
      match out with
      | .error err => ⟨none, some err, tr⟩
      | .ok _ => ⟨some (Response.deleted "deleted" i.StreamName), none, tr⟩

/-- Go `DescribeStream` (handler.go 92-110). -/
def DescribeStream (h : KinesisHandler) (inp : Option DescribeStreamInput) : HandlerResult :=
  match inp with
  | none => ⟨none, some ⟨"streamName required"⟩, []⟩
  | some i =>
    if i.StreamName = "" then ⟨none, some ⟨"streamName required"⟩, []⟩
    else
      let req : kinesis.DescribeStreamInput := ⟨some i.StreamName⟩
      let out := h.client.DescribeStream [] req
      let tr := [Event.describeStream req out]
      match out with
      | .error err => ⟨none, some err, tr⟩
      | .ok desc =>
        ⟨some (Response.description
            desc.StreamDescription.StreamName
            (aws.ToString desc.StreamDescription.StreamARN)
            desc.StreamDescription.StreamStatus
            desc.StreamDescription.RetentionPeriodHours
            desc.StreamDescription.Shards.length
            desc.StreamDescription.EncryptionType), none, tr⟩

/-- The defaulting of `limit` (handler.go 118-121). -/
def effectiveLimit (limit : Int) : Int :=
  if limit ≤ 0 then 50 else limit

/-- The value of `perShard` (handler.go 130-133) for a request limit and
`len(shards)`; Go's `/` on `int` truncates toward zero. -/
def perShardQuota (limit : Int) (nShards : Nat) : Int :=
  let perShard := (effectiveLimit limit).tdiv (nShards : Int)
  if perShard ≤ 0 then 1 else perShard

/-- The inner loop over `recOut.Records` (handler.go 151-164), entered with the
current `count` and the `records` gathered so far. -/
def truncateLoop (shard : kinesis.Shard) (perShard : Int) :
    List kinesis.Record → Int → List MessageRecord → List MessageRecord
  | [], _, records => records
  | r :: rs, count, records =>
    if count ≥ perShard then records
    else
      truncateLoop shard perShard rs (count + 1)
        (records ++ [⟨shard.ShardId, r.PartitionKey, r.SequenceNumber,
          r.ApproximateArrivalTimestamp, r.Data⟩])

/-- The loop over `shards` (handler.go 135-165), entered with the calls made so
far and the `records` gathered so far.  It ends with the error of the first
failing shard or with all the records. -/
def shardLoop (h : KinesisHandler) (streamName : String) (perShard : Int) :
    List kinesis.Shard → List Event → List MessageRecord →
      Except GoError (List MessageRecord) × List Event
  | [], tr, records => (.ok records, tr)
  | shard :: rest, tr, records =>
    let itrIn : kinesis.GetShardIteratorInput :=
      ⟨some streamName, shard.ShardId, "TRIM_HORIZON"⟩
    let itrOut := h.client.GetShardIterator tr itrIn
    let tr1 := tr ++ [Event.getShardIterator itrIn itrOut]
    match itrOut with
    | .error err =>
      (.error ⟨"get shard iterator failed for shard " ++ aws.ToString shard.ShardId
        ++ ": " ++ err.msg⟩, tr1)
    | .ok o =>
      match o.ShardIterator with
      | none =>
        (.error ⟨"missing shard iterator for shard " ++ aws.ToString shard.ShardId⟩, tr1)
      | some it =>
        let recIn : kinesis.GetRecordsInput := ⟨some it⟩
        let recOut := h.client.GetRecords tr1 recIn
        let tr2 := tr1 ++ [Event.getRecords recIn recOut]
        match recOut with
        | .error err =>
          (.error ⟨"get records failed for shard " ++ aws.ToString shard.ShardId
            ++ ": " ++ err.msg⟩, tr2)
        | .ok ro =>
          shardLoop h streamName perShard rest tr2
            (truncateLoop shard perShard ro.Records 0 records)

/-- Go `LatestMessages` (handler.go 114-171). -/
def LatestMessages (h : KinesisHandler) (inp : Option LatestMessagesInput) : HandlerResult :=
  match inp with
  | none => ⟨none, some ⟨"streamName required"⟩, []⟩
  | some i =>
    if i.StreamName = "" then ⟨none, some ⟨"streamName required"⟩, []⟩
    else
      let req : kinesis.DescribeStreamInput := ⟨some i.StreamName⟩
      let out := h.client.DescribeStream [] req
      let tr := [Event.describeStream req out]
      match out with
      | .error err => ⟨none, some err, tr⟩
      | .ok desc =>
        let shards := desc.StreamDescription.Shards
        if shards.length = 0 then ⟨some (Response.messages [] 0 0), none, tr⟩
        else
          let perShard := perShardQuota i.Limit shards.length
          match shardLoop h i.StreamName perShard shards tr [] with
          | (.error err, tr1) => ⟨none, some err, tr1⟩
          | (.ok records, tr1) =>
            ⟨some (Response.messages records records.length shards.length), none, tr1⟩

/-- Go `PublishMessage` (handler.go 174-199).  `newV4` is the value that
`uuid.New().NewV4()` yields when it is asked for a partition key; the line that
prints `out.ResultMetadata` touches neither the result nor the client. -/
def PublishMessage (h : KinesisHandler) (newV4 : String) (inp : Option PublishMessageInput) :
    HandlerResult :=
  match inp with
  | none => ⟨none, some ⟨"streamArn and data are required"⟩, []⟩
  | some i =>
    if i.StreamARN = "" ∨ i.Data = "" then
      ⟨none, some ⟨"streamArn and data are required"⟩, []⟩
    else
      let partitionKey := if i.PartitionKey = "" then newV4 else i.PartitionKey
      let req : kinesis.PutRecordInput := ⟨some i.StreamARN, some partitionKey, i.Data⟩
      let out := h.client.PutRecord [] req
      let tr := [Event.putRecord req out]
      match out with
      | .error err => ⟨none, some err, tr⟩
      | .ok o => ⟨some (Response.published o.ShardId o.SequenceNumber partitionKey), none, tr⟩

end KinesisHandler

/-! ## Reading a trace of upstream calls -/

namespace Event

/-- The request of a cursor-open call (`GetShardIterator`). -/
def openInput? : Event → Option kinesis.GetShardIteratorInput
  | getShardIterator input _ => some input
  | _ => none

/-- The cursor handed back by a cursor-open call that succeeded with one. -/
def openedIterator? : Event → Option String
  | getShardIterator _ (.ok o) => o.ShardIterator
  | _ => none

/-- The request of a record-fetch call (`GetRecords`). -/
def fetchInput? : Event → Option kinesis.GetRecordsInput
  | getRecords input _ => some input
  | _ => none

/-- The request of a stream-listing call (`ListStreams`). -/
def listInput? : Event → Option kinesis.ListStreamsInput
  | listStreams input _ => some input
  | _ => none

/-- The error of an upstream call that failed. -/
def upstreamError? : Event → Option GoError
  | listStreams _ (.error e) => some e
  | deleteStream _ (.error e) => some e
  | describeStream _ (.error e) => some e
  | getShardIterator _ (.error e) => some e
  | getRecords _ (.error e) => some e
  | putRecord _ (.error e) => some e
  | _ => none

/-- A per-shard call that stops `LatestMessages`: a cursor open that failed, a
cursor open that succeeded without a cursor, or a record fetch that failed. -/
def shardFailure : Event → Prop
  | getShardIterator _ (.error _) => True
  | getShardIterator _ (.ok o) => o.ShardIterator = none
  | getRecords _ (.error _) => True
  | _ => False

/-- The event was answered by client `c` when the calls `pre` had been made. -/
def answeredBy (c : Client) (pre : List Event) : Event → Prop
  | listStreams input out => c.ListStreams pre input = out
  | deleteStream input out => c.DeleteStream pre input = out
  | describeStream input out => c.DescribeStream pre input = out
  | getShardIterator input out => c.GetShardIterator pre input = out
  | getRecords input out => c.GetRecords pre input = out
  | putRecord input out => c.PutRecord pre input = out

end Event

/-- Every call of the trace was answered by `c` on the history before it. -/
def Faithful (c : Client) (tr : List Event) : Prop :=
  ∀ i (hi : i < tr.length), (tr.get ⟨i, hi⟩).answeredBy c (tr.take i)

/-- The upstream answers the calls `l`, made one after the other after the
history `tr`, with the results that `l` records. -/
def AnsweredFrom (c : Client) : List Event → List Event → Prop
  | _, [] => True
  | tr, ev :: l => ev.answeredBy c tr ∧ AnsweredFrom c (tr ++ [ev]) l

/-- The cursor-open request that `LatestMessages` builds for a shard. -/
def openRequest (streamName : String) (s : kinesis.Shard) : kinesis.GetShardIteratorInput :=
  ⟨some streamName, s.ShardId, "TRIM_HORIZON"⟩

/-- The two calls of a shard that is processed without failure: the open that
returned cursor `p.2.1` and the fetch with that cursor that returned `p.2.2`. -/
def okChunk (streamName : String) (p : kinesis.Shard × String × kinesis.GetRecordsOutput) :
    List Event :=
  [Event.getShardIterator (openRequest streamName p.1) (.ok ⟨some p.2.1⟩),
   Event.getRecords ⟨some p.2.1⟩ (.ok p.2.2)]

/-- The calls of a shard whose processing fails, with the error the handler
returns for it. -/
def FailTail (streamName : String) (s : kinesis.Shard) (tail : List Event) (e : GoError) : Prop :=
  (∃ ue, tail = [Event.getShardIterator (openRequest streamName s) (.error ue)] ∧
      e = ⟨"get shard iterator failed for shard " ++ aws.ToString s.ShardId ++ ": " ++ ue.msg⟩) ∨
  (tail = [Event.getShardIterator (openRequest streamName s) (.ok ⟨none⟩)] ∧
      e = ⟨"missing shard iterator for shard " ++ aws.ToString s.ShardId⟩) ∨
  (∃ it ue, tail = [Event.getShardIterator (openRequest streamName s) (.ok ⟨some it⟩),
        Event.getRecords ⟨some it⟩ (.error ue)] ∧
      e = ⟨"get records failed for shard " ++ aws.ToString s.ShardId ++ ": " ++ ue.msg⟩)

/-- Every record fetch of the trace comes right after a cursor open that
succeeded with a cursor, and it passes that cursor. -/
def FetchUsesOpenedCursor (tr : List Event) : Prop :=
  ∀ pre fi out post, tr = pre ++ Event.getRecords fi out :: post →
    ∃ pre1 oi it, pre = pre1 ++ [Event.getShardIterator oi (.ok ⟨some it⟩)] ∧ fi = ⟨some it⟩

/-- The records a shard contributes: the first `q` of its batch, each tagged with
the shard id. -/
def contribution (q : Nat) (p : kinesis.Shard × String × kinesis.GetRecordsOutput) :
    List MessageRecord :=
  (p.2.2.Records.take q).map fun r =>
    ⟨p.1.ShardId, r.PartitionKey, r.SequenceNumber, r.ApproximateArrivalTimestamp, r.Data⟩

/-- The upstream serves a pagination that starts with request `input` after the
calls `tr`: it answers with the pages in order, each call carrying the token of
the page before, and then either the last page has no token (`failure = none`)
or the next call fails with the error `failure`. -/
def Paginates (c : Client) :
    List Event → kinesis.ListStreamsInput → List kinesis.ListStreamsOutput → Option GoError → Prop
  | tr, input, [], failure => ∃ e, failure = some e ∧ c.ListStreams tr input = .error e
  | tr, input, p :: ps, failure =>
    c.ListStreams tr input = .ok p ∧
      ((p.NextToken = none ∧ ps = [] ∧ failure = none) ∨
        ∃ t, p.NextToken = some t ∧
          Paginates c (tr ++ [Event.listStreams input (.ok p)]) ⟨some t⟩ ps failure)

/-- The calls of a pagination that starts with request `input` and is served
the given pages and then, if `failure` is an error, a failing call: each request
after the first carries the token of the page before. -/
def pageEvents : kinesis.ListStreamsInput → List kinesis.ListStreamsOutput → Option GoError →
    List Event
  | _, [], none => []
  | input, [], some e => [Event.listStreams input (.error e)]
  | input, p :: ps, failure =>
    Event.listStreams input (.ok p) :: pageEvents ⟨p.NextToken⟩ ps failure

/-- The effective limit as the specification words it. -/
def specLimit (limit : Int) : Int :=
  if limit > 0 then limit else 50

/-- The per-shard quota as the specification words it:
`max(1, floor(limit / shardCount))`. -/
def specQuota (limit : Int) (nShards : Nat) : Int :=
  max 1 (Int.fdiv (specLimit limit) (nShards : Int))

/-! ## Concrete clients, used to run the handlers on explicit inputs -/

/-- Three shards of a demonstration stream. -/
def demoShards : List kinesis.Shard :=
  [⟨some "shardId-0"⟩, ⟨some "shardId-1"⟩, ⟨some "shardId-2"⟩]

/-- A record with the given partition key. -/
def demoRecord (k : String) : kinesis.Record :=
  ⟨some k, some "1", some 1700000000, "payload"⟩

/-- A client on which every call succeeds: three pages of stream names, a stream
of three shards, and two records in every shard. -/
def demoClient : Client where
  ListStreams := fun _ input =>
    if input.NextToken = none then .ok ⟨["alpha", "beta"], some "t1"⟩
    else if input.NextToken = some "t1" then .ok ⟨["gamma"], some "t2"⟩
    else .ok ⟨["delta", "epsilon"], none⟩
  DeleteStream := fun _ _ => .ok ⟨⟩
  DescribeStream := fun _ _ =>
    .ok ⟨⟨some "orders", some "arn:orders", "ACTIVE", some 24, demoShards, "NONE"⟩⟩
  GetShardIterator := fun _ input => .ok ⟨some ("it-" ++ aws.ToString input.ShardId)⟩
  GetRecords := fun _ _ => .ok ⟨[demoRecord "k1", demoRecord "k2"], some "next"⟩
  PutRecord := fun _ _ => .ok ⟨some "shardId-0", some "42"⟩

/-- A client like `demoClient` on which the second page of the stream listing
and the cursor open of the second shard fail. -/
def brokenClient : Client where
  ListStreams := fun _ input =>
    if input.NextToken = none then .ok ⟨["alpha", "beta"], some "t1"⟩
    else .error ⟨"throttled"⟩
  DeleteStream := fun _ _ => .error ⟨"stream not found"⟩
  DescribeStream := demoClient.DescribeStream
  GetShardIterator := fun _ input =>
    if input.ShardId = some "shardId-1" then .error ⟨"boom"⟩
    else .ok ⟨some ("it-" ++ aws.ToString input.ShardId)⟩
  GetRecords := demoClient.GetRecords
  PutRecord := fun _ _ => .error ⟨"access denied"⟩

/-- A client for an account without streams: every call about a stream fails. -/
def notFoundClient : Client where
  ListStreams := fun _ _ => .ok ⟨[], none⟩
  DeleteStream := fun _ _ => .error ⟨"ResourceNotFoundException: stream ghost not found"⟩
  DescribeStream := fun _ _ => .error ⟨"ResourceNotFoundException: stream ghost not found"⟩
  GetShardIterator := fun _ _ => .error ⟨"ResourceNotFoundException: stream ghost not found"⟩
  GetRecords := fun _ _ => .error ⟨"ResourceNotFoundException: stream ghost not found"⟩
  PutRecord := fun _ _ => .error ⟨"ResourceNotFoundException: stream ghost not found"⟩

def demoHandler : KinesisHandler := ⟨demoClient⟩

def notFoundHandler : KinesisHandler := ⟨notFoundClient⟩

def brokenHandler : KinesisHandler := ⟨brokenClient⟩

/-! ## Lemmas -/

namespace KinesisHandler

theorem effectiveLimit_pos (limit : Int) : 0 < effectiveLimit limit := by
  unfold effectiveLimit
  split <;> omega

theorem effectiveLimit_eq_specLimit (limit : Int) : effectiveLimit limit = specLimit limit := by
  unfold effectiveLimit specLimit
  split <;> split <;> omega

theorem perShardQuota_eq_specQuota (limit : Int) (n : Nat) (hn : 1 ≤ n) :
    perShardQuota limit n = specQuota limit n := by
  have hpos := effectiveLimit_pos limit
  have hn0 : (0 : Int) < (n : Int) := by exact_mod_cast hn
  unfold perShardQuota specQuota
  rw [← effectiveLimit_eq_specLimit]
  have h1 : (effectiveLimit limit).tdiv (n : Int) = effectiveLimit limit / (n : Int) :=
    Int.tdiv_eq_ediv (le_of_lt hpos) (le_of_lt hn0)
  have h2 : Int.fdiv (effectiveLimit limit) (n : Int) = effectiveLimit limit / (n : Int) :=
    Int.fdiv_eq_ediv _ (le_of_lt hn0)
  simp only [h1, h2]
  have h3 : 0 ≤ effectiveLimit limit / (n : Int) := Int.ediv_nonneg (le_of_lt hpos) (le_of_lt hn0)
  split
  · rw [max_eq_left]; omega
  · rw [max_eq_right]; omega

theorem perShardQuota_pos (limit : Int) (n : Nat) : 1 ≤ perShardQuota limit n := by
  unfold perShardQuota
  simp only
  split <;> omega

theorem truncateLoop_eq (shard : kinesis.Shard) (perShard : Int) (rs : List kinesis.Record) :
    ∀ (count : Int) (records : List MessageRecord),
      truncateLoop shard perShard rs count records =
        records ++ (rs.take (perShard - count).toNat).map fun r =>
          ⟨shard.ShardId, r.PartitionKey, r.SequenceNumber, r.ApproximateArrivalTimestamp,
            r.Data⟩ := by
  induction rs with
  | nil => intro count records; simp [truncateLoop]
  | cons r rs ih =>
    intro count records
    unfold truncateLoop
    split
    · have h0 : (perShard - count).toNat = 0 := by omega
      simp [h0]
    · have h1 : (perShard - count).toNat = (perShard - (count + 1)).toNat + 1 := by omega
      rw [ih, h1]
      simp

/-- The shape of every run of the shard loop: the shards `ps` are processed
without failure, and then either the list is exhausted or the next shard fails
and nothing more is called. -/
theorem shardLoop_run (h : KinesisHandler) (name : String) (q : Int) :
    ∀ (ss : List kinesis.Shard) (tr : List Event) (acc : List MessageRecord),
      ∃ (ps : List (kinesis.Shard × String × kinesis.GetRecordsOutput)) (tail : List Event),
        (shardLoop h name q ss tr acc).2 = tr ++ ps.flatMap (okChunk name) ++ tail ∧
        ((ps.map (·.1) = ss ∧ tail = [] ∧
            (shardLoop h name q ss tr acc).1 = .ok (acc ++ ps.flatMap (contribution q.toNat))) ∨
          (∃ s rest e, ss = ps.map (·.1) ++ s :: rest ∧ FailTail name s tail e ∧
            (shardLoop h name q ss tr acc).1 = .error e)) := by
  intro ss
  induction ss with
  | nil =>
    intro tr acc
    exact ⟨[], [], by simp [shardLoop], Or.inl (by simp [shardLoop])⟩
  | cons s rest ih =>
    intro tr acc
    unfold shardLoop
    simp only
    generalize hopen : h.client.GetShardIterator tr ⟨some name, s.ShardId, "TRIM_HORIZON"⟩ = itrOut
    cases itrOut with
    | error ue =>
      refine ⟨[], _, by simp; rfl, Or.inr ⟨s, rest, _, by simp, Or.inl ⟨ue, rfl, rfl⟩, rfl⟩⟩
    | ok o =>
      cases o with
      | mk itr =>
        cases itr with
        | none =>
          refine ⟨[], _, by simp; rfl, Or.inr ⟨s, rest, _, by simp, Or.inr (Or.inl ⟨rfl, rfl⟩), rfl⟩⟩
        | some it =>
          simp only
          generalize hfetch : h.client.GetRecords
            (tr ++ [Event.getShardIterator ⟨some name, s.ShardId, "TRIM_HORIZON"⟩ (.ok ⟨some it⟩)])
            ⟨some it⟩ = recOut
          cases recOut with
          | error ue =>
            refine ⟨[], _, by simp; rfl, Or.inr ⟨s, rest, _, by simp,
              Or.inr (Or.inr ⟨it, ue, ?_, rfl⟩), rfl⟩⟩
            simp [openRequest]
          | ok ro =>
            simp only
            obtain ⟨ps, tail, htr, hres⟩ := ih
              (tr ++ [Event.getShardIterator ⟨some name, s.ShardId, "TRIM_HORIZON"⟩ (.ok ⟨some it⟩)]
                ++ [Event.getRecords ⟨some it⟩ (.ok ro)])
              (truncateLoop s q ro.Records 0 acc)
            refine ⟨(s, it, ro) :: ps, tail, ?_, ?_⟩
            · rw [htr]
              simp [okChunk, openRequest]
            · rcases hres with ⟨hmap, htail, hok⟩ | ⟨s1, rest1, e, hss, hft, herr⟩
              · refine Or.inl ⟨by simp [hmap], htail, ?_⟩
                rw [hok, truncateLoop_eq]
                simp [contribution]
              · exact Or.inr ⟨s1, rest1, e, by simp [hss], hft, herr⟩

/-- The shape of every run of `LatestMessages` whose topology fetch succeeds. -/
theorem LatestMessages_run (h : KinesisHandler) (inp : LatestMessagesInput)
    (desc : kinesis.DescribeStreamOutput) (hname : inp.StreamName ≠ "")
    (hdesc : h.client.DescribeStream [] ⟨some inp.StreamName⟩ = .ok desc) :
    ∃ (ps : List (kinesis.Shard × String × kinesis.GetRecordsOutput)) (tail : List Event),
      (h.LatestMessages (some inp)).trace =
        Event.describeStream ⟨some inp.StreamName⟩ (.ok desc) ::
          (ps.flatMap (okChunk inp.StreamName) ++ tail) ∧
      ((ps.map (·.1) = desc.StreamDescription.Shards ∧ tail = [] ∧
          (h.LatestMessages (some inp)).err = none ∧
          (h.LatestMessages (some inp)).resp = some (Response.messages
            (ps.flatMap (contribution
              (perShardQuota inp.Limit desc.StreamDescription.Shards.length).toNat))
            (ps.flatMap (contribution
              (perShardQuota inp.Limit desc.StreamDescription.Shards.length).toNat)).length
            desc.StreamDescription.Shards.length)) ∨
        (∃ s rest e, desc.StreamDescription.Shards = ps.map (·.1) ++ s :: rest ∧
          FailTail inp.StreamName s tail e ∧
          (h.LatestMessages (some inp)).err = some e ∧
          (h.LatestMessages (some inp)).resp = none)) := by
  unfold LatestMessages
  simp only [hname, if_false, hdesc]
  by_cases hlen : desc.StreamDescription.Shards.length = 0
  · have hnil : desc.StreamDescription.Shards = [] := List.length_eq_zero.mp hlen
    refine ⟨[], [], ?_, Or.inl ?_⟩
    · simp [hlen]
    · simp [hlen, hnil]
  · simp only [hlen, if_false]
    obtain ⟨ps, tail, htr, hres⟩ := shardLoop_run h inp.StreamName
      (perShardQuota inp.Limit desc.StreamDescription.Shards.length)
      desc.StreamDescription.Shards
      [Event.describeStream ⟨some inp.StreamName⟩ (.ok desc)] []
    refine ⟨ps, tail, ?_, ?_⟩
    · split <;> rename_i heq <;> rw [heq] at htr <;> simpa using htr
    · rcases hres with ⟨hmap, htail, hok⟩ | ⟨s, rest, e, hss, hft, herr⟩
      · refine Or.inl ⟨hmap, htail, ?_⟩
        split <;> rename_i heq <;> rw [heq] at hok
        · simp at hok
        · simp at hok
          simp [hok]
      · refine Or.inr ⟨s, rest, e, hss, hft, ?_⟩
        split <;> rename_i heq <;> rw [heq] at herr
        · simp at herr
          simp [herr]
        · simp at herr

theorem name_of_err_none (h : KinesisHandler) (inp : LatestMessagesInput)
    (hok : (h.LatestMessages (some inp)).err = none) : inp.StreamName ≠ "" := by
  intro hempty
  simp [LatestMessages, hempty] at hok

/-- The shape of every run of `LatestMessages` that returns no error. -/
theorem LatestMessages_success (h : KinesisHandler) (inp : LatestMessagesInput)
    (desc : kinesis.DescribeStreamOutput)
    (hdesc : h.client.DescribeStream [] ⟨some inp.StreamName⟩ = .ok desc)
    (hok : (h.LatestMessages (some inp)).err = none) :
    ∃ ps : List (kinesis.Shard × String × kinesis.GetRecordsOutput),
      ps.map (·.1) = desc.StreamDescription.Shards ∧
      (h.LatestMessages (some inp)).trace =
        Event.describeStream ⟨some inp.StreamName⟩ (.ok desc) ::
          ps.flatMap (okChunk inp.StreamName) ∧
      (h.LatestMessages (some inp)).resp = some (Response.messages
        (ps.flatMap (contribution
          (perShardQuota inp.Limit desc.StreamDescription.Shards.length).toNat))
        (ps.flatMap (contribution
          (perShardQuota inp.Limit desc.StreamDescription.Shards.length).toNat)).length
        desc.StreamDescription.Shards.length) := by
  obtain ⟨ps, tail, htr, hres⟩ :=
    LatestMessages_run h inp desc (name_of_err_none h inp hok) hdesc
  rcases hres with ⟨hmap, htail, -, hresp⟩ | ⟨s, rest, e, -, -, herr, -⟩
  · exact ⟨ps, hmap, by simpa [htail] using htr, hresp⟩
  · rw [hok] at herr
    cases herr

theorem length_contributions_le (q : Nat)
    (ps : List (kinesis.Shard × String × kinesis.GetRecordsOutput)) :
    (ps.flatMap (contribution q)).length ≤ ps.length * q := by
  induction ps with
  | nil => simp
  | cons p ps ih =>
    have hp : (contribution q p).length ≤ q := by
      simp [contribution, List.length_take]
    simp only [List.flatMap_cons, List.length_append, List.length_cons]
    calc (contribution q p).length + (ps.flatMap (contribution q)).length
        ≤ q + ps.length * q := Nat.add_le_add hp ih
      _ = (ps.length + 1) * q := by ring

theorem perShardQuota_toNat (limit : Int) (n : Nat) :
    ((perShardQuota limit n).toNat : Int) = perShardQuota limit n :=
  Int.toNat_of_nonneg (by have := perShardQuota_pos limit n; omega)

theorem chunk_events_succeed (name : String)
    (ps : List (kinesis.Shard × String × kinesis.GetRecordsOutput)) :
    ∀ ev ∈ ps.flatMap (okChunk name), ¬ ev.shardFailure ∧ ev.upstreamError? = none := by
  intro ev hev
  obtain ⟨p, -, hp⟩ := List.mem_flatMap.mp hev
  simp only [okChunk, List.mem_cons, List.mem_singleton, List.not_mem_nil, or_false] at hp
  rcases hp with rfl | rfl <;> simp [Event.shardFailure, Event.upstreamError?]

theorem failTail_has_failure {name : String} {s : kinesis.Shard} {tail : List Event}
    {e : GoError} (hft : FailTail name s tail e) : ∃ ev ∈ tail, ev.shardFailure := by
  rcases hft with ⟨ue, rfl, -⟩ | ⟨rfl, -⟩ | ⟨it, ue, rfl, -⟩
  · exact ⟨_, List.mem_singleton.mpr rfl, trivial⟩
  · exact ⟨_, List.mem_singleton.mpr rfl, rfl⟩
  · exact ⟨_, List.mem_cons_of_mem _ (List.mem_singleton.mpr rfl), trivial⟩

theorem failTail_names_shard {name : String} {s : kinesis.Shard} {tail : List Event}
    {e : GoError} (hft : FailTail name s tail e) :
    (aws.ToString s.ShardId).data <:+: e.msg.data := by
  rcases hft with ⟨ue, -, rfl⟩ | ⟨-, rfl⟩ | ⟨it, ue, -, rfl⟩
  · exact ⟨"get shard iterator failed for shard ".data, ": ".data ++ ue.msg.data, by simp⟩
  · exact ⟨"missing shard iterator for shard ".data, [], by simp⟩
  · exact ⟨"get records failed for shard ".data, ": ".data ++ ue.msg.data, by simp⟩

theorem faithful_nil (c : Client) : Faithful c [] := by
  intro i hi
  simp at hi

theorem faithful_snoc {c : Client} {tr : List Event} {ev : Event}
    (htr : Faithful c tr) (hev : ev.answeredBy c tr) : Faithful c (tr ++ [ev]) := by
  intro i hi
  by_cases hlt : i < tr.length
  · have h1 := htr i hlt
    simp only [List.get_eq_getElem] at h1 ⊢
    rw [List.getElem_append_left hlt, List.take_append_of_le_length (le_of_lt hlt)]
    exact h1
  · have hi2 : i = tr.length := by
      simp only [List.length_append, List.length_singleton] at hi
      omega
    subst hi2
    simp only [List.get_eq_getElem]
    rw [List.getElem_append_right (le_refl _), List.take_left]
    simpa using hev

theorem shardLoop_faithful (h : KinesisHandler) (name : String) (q : Int) :
    ∀ (ss : List kinesis.Shard) (tr : List Event) (acc : List MessageRecord),
      Faithful h.client tr → Faithful h.client (shardLoop h name q ss tr acc).2 := by
  intro ss
  induction ss with
  | nil => intro tr acc htr; simpa [shardLoop] using htr
  | cons s rest ih =>
    intro tr acc htr
    unfold shardLoop
    simp only
    have hopenEv : (Event.getShardIterator ⟨some name, s.ShardId, "TRIM_HORIZON"⟩
        (h.client.GetShardIterator tr ⟨some name, s.ShardId, "TRIM_HORIZON"⟩)).answeredBy
        h.client tr := rfl
    have htr1 := faithful_snoc htr hopenEv
    generalize h.client.GetShardIterator tr ⟨some name, s.ShardId, "TRIM_HORIZON"⟩ = itrOut
      at htr1 ⊢
    cases itrOut with
    | error ue => exact htr1
    | ok o =>
      cases o with
      | mk itr =>
        cases itr with
        | none => exact htr1
        | some it =>
          simp only
          have hfetchEv : (Event.getRecords ⟨some it⟩ (h.client.GetRecords
              (tr ++ [Event.getShardIterator ⟨some name, s.ShardId, "TRIM_HORIZON"⟩
                (.ok ⟨some it⟩)]) ⟨some it⟩)).answeredBy h.client
              (tr ++ [Event.getShardIterator ⟨some name, s.ShardId, "TRIM_HORIZON"⟩
                (.ok ⟨some it⟩)]) := rfl
          have htr2 := faithful_snoc htr1 hfetchEv
          generalize h.client.GetRecords
            (tr ++ [Event.getShardIterator ⟨some name, s.ShardId, "TRIM_HORIZON"⟩
              (.ok ⟨some it⟩)]) ⟨some it⟩ = recOut at htr2 ⊢
          cases recOut with
          | error ue => exact htr2
          | ok ro => exact ih _ _ htr2

theorem LatestMessages_faithful (h : KinesisHandler) (inp : Option LatestMessagesInput) :
    Faithful h.client (h.LatestMessages inp).trace := by
  unfold LatestMessages
  cases inp with
  | none => exact faithful_nil _
  | some i =>
    simp only
    split
    · exact faithful_nil _
    · have hd : (Event.describeStream ⟨some i.StreamName⟩
          (h.client.DescribeStream [] ⟨some i.StreamName⟩)).answeredBy h.client [] := rfl
      have htr := faithful_snoc (faithful_nil h.client) hd
      simp only [List.nil_append] at htr
      generalize h.client.DescribeStream [] ⟨some i.StreamName⟩ = out at htr ⊢
      cases out with
      | error e => exact htr
      | ok desc =>
        simp only
        split
        · exact htr
        · have hf := shardLoop_faithful h i.StreamName
            (perShardQuota i.Limit desc.StreamDescription.Shards.length)
            desc.StreamDescription.Shards _ [] htr
          split <;> rename_i heq <;> rw [heq] at hf <;> exact hf

theorem fetchUsesOpenedCursor_nil : FetchUsesOpenedCursor [] := by
  intro pre fi out post hsplit
  simp at hsplit

theorem fetchUsesOpenedCursor_cons {a : Event} {l : List Event}
    (ha : a.fetchInput? = none) (hl : FetchUsesOpenedCursor l) :
    FetchUsesOpenedCursor (a :: l) := by
  intro pre fi out post hsplit
  cases pre with
  | nil =>
    simp only [List.nil_append, List.cons.injEq] at hsplit
    rw [hsplit.1] at ha
    simp [Event.fetchInput?] at ha
  | cons b pre2 =>
    simp only [List.cons_append, List.cons.injEq] at hsplit
    obtain ⟨pre1, oi, it, hpre, hfi⟩ := hl pre2 fi out post hsplit.2
    exact ⟨b :: pre1, oi, it, by simp [hpre], hfi⟩

theorem fetchUsesOpenedCursor_pair {oi : kinesis.GetShardIteratorInput} {it : String}
    {out : Except GoError kinesis.GetRecordsOutput} {l : List Event}
    (hl : FetchUsesOpenedCursor l) :
    FetchUsesOpenedCursor
      (Event.getShardIterator oi (.ok ⟨some it⟩) :: Event.getRecords ⟨some it⟩ out :: l) := by
  intro pre fi out1 post hsplit
  cases pre with
  | nil => simp at hsplit
  | cons a pre2 =>
    simp only [List.cons_append, List.cons.injEq] at hsplit
    obtain ⟨rfl, hsplit⟩ := hsplit
    cases pre2 with
    | nil =>
      simp only [List.nil_append, List.cons.injEq, Event.getRecords.injEq] at hsplit
      exact ⟨[], oi, it, rfl, hsplit.1.1.symm⟩
    | cons b pre3 =>
      simp only [List.cons_append, List.cons.injEq] at hsplit
      obtain ⟨rfl, hsplit⟩ := hsplit
      obtain ⟨pre1, oi1, it1, hpre, hfi⟩ := hl pre3 fi out1 post hsplit
      exact ⟨Event.getShardIterator oi (.ok ⟨some it⟩) :: Event.getRecords ⟨some it⟩ out :: pre1,
        oi1, it1, by simp [hpre], hfi⟩

theorem fetchUsesOpenedCursor_failTail {name : String} {s : kinesis.Shard}
    {tail : List Event} {e : GoError} (hft : FailTail name s tail e) :
    FetchUsesOpenedCursor tail := by
  rcases hft with ⟨ue, rfl, -⟩ | ⟨rfl, -⟩ | ⟨it, ue, rfl, -⟩
  · exact fetchUsesOpenedCursor_cons rfl fetchUsesOpenedCursor_nil
  · exact fetchUsesOpenedCursor_cons rfl fetchUsesOpenedCursor_nil
  · exact fetchUsesOpenedCursor_pair fetchUsesOpenedCursor_nil

theorem fetchUsesOpenedCursor_chunks (name : String)
    (ps : List (kinesis.Shard × String × kinesis.GetRecordsOutput)) {tail : List Event}
    (htail : FetchUsesOpenedCursor tail) :
    FetchUsesOpenedCursor (ps.flatMap (okChunk name) ++ tail) := by
  induction ps with
  | nil => simpa using htail
  | cons p ps ih =>
    simp only [List.flatMap_cons, okChunk, List.cons_append, List.nil_append]
    exact fetchUsesOpenedCursor_pair ih

theorem opens_chunks (name : String)
    (ps : List (kinesis.Shard × String × kinesis.GetRecordsOutput)) :
    (ps.flatMap (okChunk name)).filterMap Event.openInput? =
      (ps.map (·.1)).map (openRequest name) := by
  induction ps with
  | nil => rfl
  | cons p ps ih => simp [okChunk, Event.openInput?, ih]

theorem iterators_chunks (name : String)
    (ps : List (kinesis.Shard × String × kinesis.GetRecordsOutput)) :
    (ps.flatMap (okChunk name)).filterMap Event.openedIterator? = ps.map (·.2.1) := by
  induction ps with
  | nil => rfl
  | cons p ps ih => simp [okChunk, Event.openedIterator?, ih]

theorem fetches_chunks (name : String)
    (ps : List (kinesis.Shard × String × kinesis.GetRecordsOutput)) :
    (ps.flatMap (okChunk name)).filterMap Event.fetchInput? =
      ps.map (fun p => (⟨some p.2.1⟩ : kinesis.GetRecordsInput)) := by
  induction ps with
  | nil => rfl
  | cons p ps ih => simp [okChunk, Event.fetchInput?, ih]

theorem length_chunks (name : String)
    (ps : List (kinesis.Shard × String × kinesis.GetRecordsOutput)) :
    (ps.flatMap (okChunk name)).length = 2 * ps.length := by
  induction ps with
  | nil => rfl
  | cons p ps ih =>
    simp only [List.flatMap_cons, List.length_append, ih, okChunk, List.length_cons,
      List.length_nil]
    omega

theorem failTail_calls {name : String} {s : kinesis.Shard} {tail : List Event}
    {e : GoError} (hft : FailTail name s tail e) :
    tail.filterMap Event.openInput? = [openRequest name s] ∧
    tail.filterMap Event.fetchInput? =
      (tail.filterMap Event.openedIterator?).map (fun it => ⟨some it⟩) ∧
    tail.length = 1 + (tail.filterMap Event.fetchInput?).length := by
  rcases hft with ⟨ue, rfl, -⟩ | ⟨rfl, -⟩ | ⟨it, ue, rfl, -⟩ <;>
    simp [Event.openInput?, Event.fetchInput?, Event.openedIterator?]

/-- The run of the pagination loop on an upstream that serves `pages` and then
stops or fails: with fuel for one iteration per call, the loop returns. -/
theorem listStreamsLoop_run (h : KinesisHandler) :
    ∀ (pages : List kinesis.ListStreamsOutput) (failure : Option GoError) (fuel : Nat)
      (tr : List Event) (input : kinesis.ListStreamsInput) (all : List String),
      Paginates h.client tr input pages failure →
      pages.length + failure.toList.length ≤ fuel →
      listStreamsLoop h fuel tr input all =
        some ⟨(match failure with
            | none => some (Response.streams (all ++ pages.flatMap (·.StreamNames))
                ((all ++ pages.flatMap (·.StreamNames)).length : Nat))
            | some _ => none),
          failure, tr ++ pageEvents input pages failure⟩ := by
  intro pages
  induction pages with
  | nil =>
    intro failure fuel tr input all hpag hfuel
    obtain ⟨e, rfl, hcall⟩ := hpag
    cases fuel with
    | zero => simp at hfuel
    | succ f => simp [listStreamsLoop, hcall, pageEvents]
  | cons p ps ih =>
    intro failure fuel tr input all hpag hfuel
    obtain ⟨hcall, hnext⟩ := hpag
    cases fuel with
    | zero => simp at hfuel
    | succ f =>
      rcases hnext with ⟨htok, rfl, rfl⟩ | ⟨t, htok, hrest⟩
      · simp [listStreamsLoop, hcall, htok, pageEvents]
      · have hf : ps.length + failure.toList.length ≤ f := by
          simp only [List.length_cons] at hfuel
          omega
        have := ih failure f _ ⟨some t⟩ (all ++ p.StreamNames) hrest hf
        simp only [listStreamsLoop, hcall, htok, this]
        simp [pageEvents, htok]

theorem listInputs_pageEvents :
    ∀ (pages : List kinesis.ListStreamsOutput) (input : kinesis.ListStreamsInput),
      pages ≠ [] →
      (pageEvents input pages none).filterMap Event.listInput? =
        input :: pages.dropLast.map (fun p => (⟨p.NextToken⟩ : kinesis.ListStreamsInput)) := by
  intro pages
  induction pages with
  | nil => intro input hne; exact absurd rfl hne
  | cons p ps ih =>
    intro input _
    cases ps with
    | nil => simp [pageEvents, Event.listInput?]
    | cons q qs =>
      have := ih ⟨p.NextToken⟩ (by simp)
      simp only [pageEvents, List.filterMap_cons, Event.listInput?] at this ⊢
      simp [this]

theorem length_pageEvents :
    ∀ (pages : List kinesis.ListStreamsOutput) (input : kinesis.ListStreamsInput),
      (pageEvents input pages none).length = pages.length := by
  intro pages
  induction pages with
  | nil => intro input; rfl
  | cons p ps ih => intro input; simp [pageEvents, ih]

theorem listStreamsLoop_error (h : KinesisHandler) :
    ∀ (fuel : Nat) (tr : List Event) (input : kinesis.ListStreamsInput) (all : List String)
      (R : HandlerResult),
      (∀ ev ∈ tr, ev.upstreamError? = none) →
      listStreamsLoop h fuel tr input all = some R →
      ∀ ev ∈ R.trace, ∀ e, ev.upstreamError? = some e → R.err = some e ∧ R.resp = none := by
  intro fuel
  induction fuel with
  | zero => intro tr input all R _ hrun; simp [listStreamsLoop] at hrun
  | succ f ih =>
    intro tr input all R htr hrun
    unfold listStreamsLoop at hrun
    simp only at hrun
    generalize h.client.ListStreams tr input = out at hrun
    cases out with
    | error err =>
      simp only [Option.some.injEq] at hrun
      subst hrun
      intro ev hev e hue
      simp only [List.mem_append, List.mem_singleton] at hev
      rcases hev with hev | rfl
      · rw [htr ev hev] at hue
        cases hue
      · simp only [Event.upstreamError?, Option.some.injEq] at hue
        subst hue
        exact ⟨rfl, rfl⟩
    | ok o =>
      have htr1 : ∀ ev ∈ tr ++ [Event.listStreams input (.ok o)], ev.upstreamError? = none := by
        intro ev hev
        simp only [List.mem_append, List.mem_singleton] at hev
        rcases hev with hev | rfl
        · exact htr ev hev
        · rfl
      simp only at hrun
      cases htok : o.NextToken with
      | none =>
        simp only [htok, Option.some.injEq] at hrun
        subst hrun
        intro ev hev e hue
        rw [htr1 ev hev] at hue
        cases hue
      | some t =>
        simp only [htok] at hrun
        exact ih _ _ _ R htr1 hrun

/-- When the upstream answers the opens and fetches of the shards `ps` with
success, the shard loop works through them and goes on with the shards left. -/
theorem shardLoop_served (h : KinesisHandler) (name : String) (q : Int) :
    ∀ (ps : List (kinesis.Shard × String × kinesis.GetRecordsOutput)) (tr : List Event)
      (acc : List MessageRecord) (more : List kinesis.Shard) (l : List Event),
      AnsweredFrom h.client tr (ps.flatMap (okChunk name) ++ l) →
      shardLoop h name q (ps.map (·.1) ++ more) tr acc =
          shardLoop h name q more (tr ++ ps.flatMap (okChunk name))
            (acc ++ ps.flatMap (contribution q.toNat)) ∧
        AnsweredFrom h.client (tr ++ ps.flatMap (okChunk name)) l := by
  intro ps
  induction ps with
  | nil => intro tr acc more l hans; simpa using hans
  | cons p ps ih =>
    intro tr acc more l hans
    simp only [List.flatMap_cons, okChunk, List.cons_append, List.nil_append,
      AnsweredFrom, Event.answeredBy, openRequest] at hans
    obtain ⟨hopen, hfetch, hrest⟩ := hans
    obtain ⟨hloop, hl⟩ := ih (tr ++ [Event.getShardIterator ⟨some name, p.1.ShardId,
      "TRIM_HORIZON"⟩ (.ok ⟨some p.2.1⟩)] ++ [Event.getRecords ⟨some p.2.1⟩ (.ok p.2.2)])
      (truncateLoop p.1 q p.2.2.Records 0 acc) more l hrest
    constructor
    · simp only [List.map_cons, List.cons_append]
      rw [shardLoop]
      simp only [hopen, hfetch]
      rw [hloop, truncateLoop_eq]
      simp [okChunk, openRequest, contribution]
    · simpa [okChunk, openRequest] using hl

/-- When the upstream answers the calls of shard `s` with a failure, the shard
loop stops there with the error of that failure. -/
theorem shardLoop_fails (h : KinesisHandler) (name : String) (q : Int)
    {s : kinesis.Shard} {tail : List Event} {e : GoError}
    (rest : List kinesis.Shard) (tr : List Event) (acc : List MessageRecord)
    (hft : FailTail name s tail e) (hans : AnsweredFrom h.client tr tail) :
    shardLoop h name q (s :: rest) tr acc = (.error e, tr ++ tail) := by
  rcases hft with ⟨ue, rfl, rfl⟩ | ⟨rfl, rfl⟩ | ⟨it, ue, rfl, rfl⟩
  · simp only [AnsweredFrom, Event.answeredBy, openRequest, and_true] at hans
    rw [shardLoop]
    simp [hans, openRequest]
  · simp only [AnsweredFrom, Event.answeredBy, openRequest, and_true] at hans
    rw [shardLoop]
    simp [hans, openRequest]
  · simp only [AnsweredFrom, Event.answeredBy, openRequest, and_true] at hans
    rw [shardLoop]
    simp [hans.1, hans.2, openRequest]

/-- The whole of `LatestMessages` on an upstream that answers every shard of the
topology with success. -/
theorem LatestMessages_served (h : KinesisHandler) (inp : LatestMessagesInput)
    (desc : kinesis.DescribeStreamOutput)
    (ps : List (kinesis.Shard × String × kinesis.GetRecordsOutput))
    (hname : inp.StreamName ≠ "")
    (hdesc : h.client.DescribeStream [] ⟨some inp.StreamName⟩ = .ok desc)
    (hss : desc.StreamDescription.Shards = ps.map (·.1))
    (hans : AnsweredFrom h.client [Event.describeStream ⟨some inp.StreamName⟩ (.ok desc)]
      (ps.flatMap (okChunk inp.StreamName))) :
    (h.LatestMessages (some inp)).err = none ∧
    (h.LatestMessages (some inp)).resp = some (Response.messages
      (ps.flatMap (contribution
        (perShardQuota inp.Limit desc.StreamDescription.Shards.length).toNat))
      (ps.flatMap (contribution
        (perShardQuota inp.Limit desc.StreamDescription.Shards.length).toNat)).length
      desc.StreamDescription.Shards.length) ∧
    (h.LatestMessages (some inp)).trace =
      Event.describeStream ⟨some inp.StreamName⟩ (.ok desc) ::
        ps.flatMap (okChunk inp.StreamName) := by
  have hloop := (shardLoop_served h inp.StreamName
    (perShardQuota inp.Limit desc.StreamDescription.Shards.length) ps
    [Event.describeStream ⟨some inp.StreamName⟩ (.ok desc)] [] [] []
    (by simpa using hans)).1
  simp only [List.append_nil, List.nil_append, shardLoop] at hloop
  unfold LatestMessages
  simp only [hname, if_false, hdesc]
  by_cases hlen : desc.StreamDescription.Shards.length = 0
  · have hnil : ps = [] := by
      have : ps.length = 0 := by rw [← hlen, hss, List.length_map]
      exact List.length_eq_zero.mp this
    simp [hlen, hnil]
  · simp only [hlen, if_false]
    rw [hss] at hloop ⊢
    rw [hloop]
    simp

/-- The whole of `LatestMessages` on an upstream that answers the shards `ps`
with success and the next shard `s` with a failure. -/
theorem LatestMessages_served_then_fails (h : KinesisHandler) (inp : LatestMessagesInput)
    (desc : kinesis.DescribeStreamOutput)
    (ps : List (kinesis.Shard × String × kinesis.GetRecordsOutput))
    (s : kinesis.Shard) (rest : List kinesis.Shard) (tail : List Event) (e : GoError)
    (hname : inp.StreamName ≠ "")
    (hdesc : h.client.DescribeStream [] ⟨some inp.StreamName⟩ = .ok desc)
    (hss : desc.StreamDescription.Shards = ps.map (·.1) ++ s :: rest)
    (hft : FailTail inp.StreamName s tail e)
    (hans : AnsweredFrom h.client [Event.describeStream ⟨some inp.StreamName⟩ (.ok desc)]
      (ps.flatMap (okChunk inp.StreamName) ++ tail)) :
    (h.LatestMessages (some inp)).err = some e ∧
    (h.LatestMessages (some inp)).resp = none ∧
    (h.LatestMessages (some inp)).trace =
      Event.describeStream ⟨some inp.StreamName⟩ (.ok desc) ::
        (ps.flatMap (okChunk inp.StreamName) ++ tail) := by
  obtain ⟨hloop, htail⟩ := shardLoop_served h inp.StreamName
    (perShardQuota inp.Limit desc.StreamDescription.Shards.length) ps
    [Event.describeStream ⟨some inp.StreamName⟩ (.ok desc)] [] (s :: rest) tail hans
  rw [shardLoop_fails h inp.StreamName _ rest _ _ hft htail] at hloop
  unfold LatestMessages
  simp only [hname, if_false, hdesc]
  have hlen : desc.StreamDescription.Shards.length ≠ 0 := by
    rw [hss]
    simp
  simp only [hlen, if_false]
  rw [hss] at hloop ⊢
  rw [hloop]
  simp

theorem answeredFrom_append (c : Client) :
    ∀ (l1 : List Event) (tr : List Event) (l2 : List Event),
      AnsweredFrom c tr l1 → AnsweredFrom c (tr ++ l1) l2 → AnsweredFrom c tr (l1 ++ l2) := by
  intro l1
  induction l1 with
  | nil => intro tr l2 _ h2; simpa using h2
  | cons ev l1 ih =>
    intro tr l2 h1 h2
    obtain ⟨hev, hrest⟩ := h1
    refine ⟨hev, ih (tr ++ [ev]) l2 hrest ?_⟩
    simpa using h2

/-! ## Theorems -/

/-- C1: for every requested limit and every shard count `S ≥ 1`, the value of
`perShard` that `LatestMessages` truncates with is `max(1, floor(L / S))`, where
`L` is the limit if it is positive and 50 otherwise; limit 50 with 3 shards gives
16 and limit 2 with 5 shards gives 1. -/
theorem perShardQuota_spec (limit : Int) (S : Nat) (hS : 1 ≤ S) :
    perShardQuota limit S =
        max 1 (Int.fdiv (if limit > 0 then limit else 50) (S : Int)) ∧
      perShardQuota 50 3 = 16 ∧ perShardQuota 2 5 = 1 := by
  refine ⟨?_, by decide, by decide⟩
  rw [perShardQuota_eq_specQuota limit S hS]
  rfl

theorem perShardQuota_spec_witness :
    1 ≤ 4 ∧ (perShardQuota (-7) 4 =
        max 1 (Int.fdiv (if (-7 : Int) > 0 then (-7) else 50) ((4 : Nat) : Int)) ∧
      perShardQuota 50 3 = 16 ∧ perShardQuota 2 5 = 1) :=
  ⟨by decide, perShardQuota_spec (-7) 4 (by decide)⟩

/-- C6: `DeleteStream`, `DescribeStream`, `LatestMessages` and `PublishMessage`
return an error, no response, and call the upstream client zero times when the
input is nil or a required field is empty (`streamName`; `streamArn` or `data`
for `PublishMessage`); when the required fields are all non-empty they call the
upstream client at least once. -/
theorem required_fields_checked_before_upstream (h : KinesisHandler) (newV4 : String) :
    (∀ inp : Option DeleteStreamInput, (inp = none ∨ ∃ i, inp = some i ∧ i.StreamName = "") →
        (h.DeleteStream inp).err ≠ none ∧ (h.DeleteStream inp).resp = none ∧
          (h.DeleteStream inp).trace = []) ∧
    (∀ i : DeleteStreamInput, i.StreamName ≠ "" → 1 ≤ (h.DeleteStream (some i)).trace.length) ∧
    (∀ inp : Option DescribeStreamInput, (inp = none ∨ ∃ i, inp = some i ∧ i.StreamName = "") →
        (h.DescribeStream inp).err ≠ none ∧ (h.DescribeStream inp).resp = none ∧
          (h.DescribeStream inp).trace = []) ∧
    (∀ i : DescribeStreamInput, i.StreamName ≠ "" →
        1 ≤ (h.DescribeStream (some i)).trace.length) ∧
    (∀ inp : Option LatestMessagesInput, (inp = none ∨ ∃ i, inp = some i ∧ i.StreamName = "") →
        (h.LatestMessages inp).err ≠ none ∧ (h.LatestMessages inp).resp = none ∧
          (h.LatestMessages inp).trace = []) ∧
    (∀ i : LatestMessagesInput, i.StreamName ≠ "" →
        1 ≤ (h.LatestMessages (some i)).trace.length) ∧
    (∀ inp : Option PublishMessageInput,
        (inp = none ∨ ∃ i, inp = some i ∧ (i.StreamARN = "" ∨ i.Data = "")) →
        (h.PublishMessage newV4 inp).err ≠ none ∧ (h.PublishMessage newV4 inp).resp = none ∧
          (h.PublishMessage newV4 inp).trace = []) ∧
    (∀ i : PublishMessageInput, i.StreamARN ≠ "" → i.Data ≠ "" →
        1 ≤ (h.PublishMessage newV4 (some i)).trace.length) := by
  refine ⟨?_, ?_, ?_, ?_, ?_, ?_, ?_, ?_⟩
  · rintro inp (rfl | ⟨i, rfl, hi⟩) <;> simp [DeleteStream, *]
  · intro i hi
    simp only [DeleteStream, hi, if_false]
    split <;> simp
  · rintro inp (rfl | ⟨i, rfl, hi⟩) <;> simp [DescribeStream, *]
  · intro i hi
    simp only [DescribeStream, hi, if_false]
    split <;> simp
  · rintro inp (rfl | ⟨i, rfl, hi⟩) <;> simp [LatestMessages, *]
  · intro i hi
    cases hd : h.client.DescribeStream [] ⟨some i.StreamName⟩ with
    | error e => simp [LatestMessages, hi, hd]
    | ok desc =>
      obtain ⟨ps, tail, htr, -⟩ := LatestMessages_run h i desc hi hd
      rw [htr]
      simp
  · rintro inp (rfl | ⟨i, rfl, hi⟩) <;> simp [PublishMessage, *]
  · intro i h1 h2
    simp only [PublishMessage, h1, h2, or_self, if_false]
    split <;> simp

theorem required_fields_checked_before_upstream_witness :
    (demoHandler.PublishMessage "generated" (some ⟨"arn:orders", "", ""⟩)).err ≠ none ∧
      (demoHandler.PublishMessage "generated" (some ⟨"arn:orders", "", ""⟩)).resp = none ∧
      (demoHandler.PublishMessage "generated" (some ⟨"arn:orders", "", ""⟩)).trace = [] :=
  (required_fields_checked_before_upstream demoHandler "generated").2.2.2.2.2.2.1
    (some ⟨"arn:orders", "", ""⟩) (Or.inr ⟨_, rfl, Or.inr rfl⟩)

/-- C3: a `LatestMessages` call that returns no error, on a stream whose topology
has `S` shards, returns a response; if `S = 0` its record list is empty and its
count and shards are 0; if `S > 0` its shards field is `S` and its count, which
is the number of its records, is at most `S * Q` with `Q = max(1, floor(L / S))`
and `L` the limit if positive and 50 otherwise. -/
theorem LatestMessages_count_le_shards_mul_quota (h : KinesisHandler)
    (inp : LatestMessagesInput) (desc : kinesis.DescribeStreamOutput)
    (hdesc : h.client.DescribeStream [] ⟨some inp.StreamName⟩ = .ok desc)
    (hok : (h.LatestMessages (some inp)).err = none) :
    ∃ records count shards,
      (h.LatestMessages (some inp)).resp = some (Response.messages records count shards) ∧
      count = (records.length : Int) ∧
      (desc.StreamDescription.Shards.length = 0 → records = [] ∧ count = 0 ∧ shards = 0) ∧
      (0 < desc.StreamDescription.Shards.length →
        shards = (desc.StreamDescription.Shards.length : Int) ∧
        count ≤ (desc.StreamDescription.Shards.length : Int) *
          max 1 (Int.fdiv (if inp.Limit > 0 then inp.Limit else 50)
            (desc.StreamDescription.Shards.length : Int))) := by
  obtain ⟨ps, hmap, -, hresp⟩ := LatestMessages_success h inp desc hdesc hok
  have hlen : ps.length = desc.StreamDescription.Shards.length := by
    rw [← hmap, List.length_map]
  refine ⟨_, _, _, hresp, rfl, ?_, ?_⟩
  · intro h0
    have hnil : ps = [] := List.length_eq_zero.mp (hlen.trans h0)
    simp [hnil, h0]
  · intro hpos
    refine ⟨rfl, ?_⟩
    have hq := perShardQuota_eq_specQuota inp.Limit desc.StreamDescription.Shards.length hpos
    unfold specQuota specLimit at hq
    rw [← hq, ← perShardQuota_toNat, ← hlen]
    exact_mod_cast length_contributions_le _ ps

theorem LatestMessages_count_le_shards_mul_quota_witness :
    ∃ records count shards,
      (demoHandler.LatestMessages (some ⟨"orders", 3⟩)).resp =
        some (Response.messages records count shards) ∧
      count = (records.length : Int) ∧
      (demoShards.length = 0 → records = [] ∧ count = 0 ∧ shards = 0) ∧
      (0 < demoShards.length →
        shards = (demoShards.length : Int) ∧
        count ≤ (demoShards.length : Int) *
          max 1 (Int.fdiv (if (3 : Int) > 0 then 3 else 50) (demoShards.length : Int))) :=
  LatestMessages_count_le_shards_mul_quota demoHandler ⟨"orders", 3⟩
    ⟨⟨some "orders", some "arn:orders", "ACTIVE", some 24, demoShards, "NONE"⟩⟩ rfl rfl

/-- C4: a `LatestMessages` call that returns no error, on a stream whose shard
count `S` is at most the effective limit `L` (the limit if positive, 50
otherwise), returns at most `L` records, whatever batches the fetches return. -/
theorem LatestMessages_count_le_limit (h : KinesisHandler)
    (inp : LatestMessagesInput) (desc : kinesis.DescribeStreamOutput)
    (hdesc : h.client.DescribeStream [] ⟨some inp.StreamName⟩ = .ok desc)
    (hok : (h.LatestMessages (some inp)).err = none)
    (hS : (desc.StreamDescription.Shards.length : Int) ≤
      (if inp.Limit > 0 then inp.Limit else 50)) :
    ∃ records count shards,
      (h.LatestMessages (some inp)).resp = some (Response.messages records count shards) ∧
      (records.length : Int) ≤ (if inp.Limit > 0 then inp.Limit else 50) ∧
      count ≤ (if inp.Limit > 0 then inp.Limit else 50) := by
  obtain ⟨ps, hmap, -, hresp⟩ := LatestMessages_success h inp desc hdesc hok
  have hlen : ps.length = desc.StreamDescription.Shards.length := by
    rw [← hmap, List.length_map]
  have hL : (0 : Int) < (if inp.Limit > 0 then inp.Limit else 50) := by
    split <;> omega
  have hbound : ((ps.flatMap (contribution
      (perShardQuota inp.Limit desc.StreamDescription.Shards.length).toNat)).length : Int) ≤
      (if inp.Limit > 0 then inp.Limit else 50) := by
    by_cases h0 : desc.StreamDescription.Shards.length = 0
    · have hnil : ps = [] := List.length_eq_zero.mp (hlen.trans h0)
      simp only [hnil, List.flatMap_nil, List.length_nil, Nat.cast_zero]
      exact le_of_lt hL
    · have hpos : 1 ≤ desc.StreamDescription.Shards.length := Nat.one_le_iff_ne_zero.mpr h0
      have hSpos : (0 : Int) < (desc.StreamDescription.Shards.length : Int) := by
        exact_mod_cast hpos
      have hq := perShardQuota_eq_specQuota inp.Limit desc.StreamDescription.Shards.length hpos
      unfold specQuota specLimit at hq
      rw [Int.fdiv_eq_ediv _ (le_of_lt hSpos)] at hq
      have hone : 1 ≤ (if inp.Limit > 0 then inp.Limit else 50) /
          (desc.StreamDescription.Shards.length : Int) := by
        rw [Int.le_ediv_iff_mul_le hSpos]
        omega
      rw [max_eq_right hone] at hq
      have hmul : (desc.StreamDescription.Shards.length : Int) *
          ((if inp.Limit > 0 then inp.Limit else 50) /
            (desc.StreamDescription.Shards.length : Int)) ≤
          (if inp.Limit > 0 then inp.Limit else 50) :=
        Int.mul_ediv_self_le (by omega)
      have hcount : ((ps.flatMap (contribution
          (perShardQuota inp.Limit desc.StreamDescription.Shards.length).toNat)).length : Int) ≤
          (desc.StreamDescription.Shards.length : Int) *
            perShardQuota inp.Limit desc.StreamDescription.Shards.length := by
        rw [← perShardQuota_toNat, ← hlen]
        exact_mod_cast length_contributions_le _ ps
      refine le_trans hcount ?_
      rw [hq]
      exact hmul
  exact ⟨_, _, _, hresp, hbound, hbound⟩

theorem LatestMessages_count_le_limit_witness :
    ∃ records count shards,
      (demoHandler.LatestMessages (some ⟨"orders", 4⟩)).resp =
        some (Response.messages records count shards) ∧
      (records.length : Int) ≤ (if (4 : Int) > 0 then 4 else 50) ∧
      count ≤ (if (4 : Int) > 0 then 4 else 50) :=
  LatestMessages_count_le_limit demoHandler ⟨"orders", 4⟩
    ⟨⟨some "orders", some "arn:orders", "ACTIVE", some 24, demoShards, "NONE"⟩⟩ rfl rfl
    (by decide)

/-- C5: a `LatestMessages` call that returns no error, on a stream with at least
one shard, opened and fetched every shard of the topology in order (shard `p.1`
got cursor `p.2.1` and its fetch returned the batch `p.2.2.Records`), and its
record list is the concatenation, in topology order, of the first
`min(Q, length b)` records of each batch `b` in the order fetched, each carrying
the id of its shard and the partition key, sequence number, arrival timestamp
and payload of the fetched record; the count is the length of that list, and no
shard contributes more than `Q = max(1, floor(L / S))` records. -/
theorem LatestMessages_records_eq_truncated_batches (h : KinesisHandler)
    (inp : LatestMessagesInput) (desc : kinesis.DescribeStreamOutput)
    (hdesc : h.client.DescribeStream [] ⟨some inp.StreamName⟩ = .ok desc)
    (hne : desc.StreamDescription.Shards ≠ [])
    (hok : (h.LatestMessages (some inp)).err = none) :
    ∃ ps : List (kinesis.Shard × String × kinesis.GetRecordsOutput),
      ps.map (·.1) = desc.StreamDescription.Shards ∧
      (h.LatestMessages (some inp)).trace =
        Event.describeStream ⟨some inp.StreamName⟩ (.ok desc) ::
          ps.flatMap (okChunk inp.StreamName) ∧
      (∃ records,
        (h.LatestMessages (some inp)).resp = some (Response.messages records records.length
          desc.StreamDescription.Shards.length) ∧
        records = ps.flatMap fun p =>
          (p.2.2.Records.take (min
              (max 1 (Int.fdiv (if inp.Limit > 0 then inp.Limit else 50)
                (desc.StreamDescription.Shards.length : Int))).toNat
              p.2.2.Records.length)).map fun r =>
            (⟨p.1.ShardId, r.PartitionKey, r.SequenceNumber, r.ApproximateArrivalTimestamp,
              r.Data⟩ : MessageRecord)) ∧
      ∀ p ∈ ps,
        ((p.2.2.Records.take (min
            (max 1 (Int.fdiv (if inp.Limit > 0 then inp.Limit else 50)
              (desc.StreamDescription.Shards.length : Int))).toNat
            p.2.2.Records.length)).length : Int) ≤
          max 1 (Int.fdiv (if inp.Limit > 0 then inp.Limit else 50)
            (desc.StreamDescription.Shards.length : Int)) := by
  obtain ⟨ps, hmap, htr, hresp⟩ := LatestMessages_success h inp desc hdesc hok
  have hpos : 1 ≤ desc.StreamDescription.Shards.length :=
    Nat.one_le_iff_ne_zero.mpr (fun h0 => hne (List.length_eq_zero.mp h0))
  have hq := perShardQuota_eq_specQuota inp.Limit desc.StreamDescription.Shards.length hpos
  unfold specQuota specLimit at hq
  rw [hq] at hresp
  refine ⟨ps, hmap, htr, ⟨_, hresp, ?_⟩, ?_⟩
  · congr 1
    funext p
    simp only [contribution]
    congr 1
    rw [List.take_eq_take]
    simp
  · intro p _
    rw [List.length_take]
    have h1 : (1 : Int) ≤ max 1 (Int.fdiv (if inp.Limit > 0 then inp.Limit else 50)
        (desc.StreamDescription.Shards.length : Int)) := le_max_left _ _
    omega

theorem LatestMessages_records_eq_truncated_batches_witness :
    (∃ ps : List (kinesis.Shard × String × kinesis.GetRecordsOutput),
      ps.map (·.1) = demoShards ∧
      (demoHandler.LatestMessages (some ⟨"orders", 3⟩)).trace =
        Event.describeStream ⟨some "orders"⟩
            (.ok ⟨⟨some "orders", some "arn:orders", "ACTIVE", some 24, demoShards, "NONE"⟩⟩) ::
          ps.flatMap (okChunk "orders") ∧
      (∃ records,
        (demoHandler.LatestMessages (some ⟨"orders", 3⟩)).resp =
          some (Response.messages records records.length demoShards.length) ∧
        records = ps.flatMap fun p =>
          (p.2.2.Records.take (min
              (max 1 (Int.fdiv (if (3 : Int) > 0 then 3 else 50)
                (demoShards.length : Int))).toNat
              p.2.2.Records.length)).map fun r =>
            (⟨p.1.ShardId, r.PartitionKey, r.SequenceNumber, r.ApproximateArrivalTimestamp,
              r.Data⟩ : MessageRecord)) ∧
      ∀ p ∈ ps,
        ((p.2.2.Records.take (min
            (max 1 (Int.fdiv (if (3 : Int) > 0 then 3 else 50)
              (demoShards.length : Int))).toNat
            p.2.2.Records.length)).length : Int) ≤
          max 1 (Int.fdiv (if (3 : Int) > 0 then 3 else 50) (demoShards.length : Int))) ∧
    (demoHandler.LatestMessages (some ⟨"orders", 3⟩)).resp =
      some (Response.messages
        [⟨some "shardId-0", some "k1", some "1", some 1700000000, "payload"⟩,
         ⟨some "shardId-1", some "k1", some "1", some 1700000000, "payload"⟩,
         ⟨some "shardId-2", some "k1", some "1", some 1700000000, "payload"⟩] 3 3) :=
  ⟨LatestMessages_records_eq_truncated_batches demoHandler ⟨"orders", 3⟩
    ⟨⟨some "orders", some "arn:orders", "ACTIVE", some 24, demoShards, "NONE"⟩⟩ rfl
    (by decide) rfl, rfl⟩

/-- C2: for a `LatestMessages` call with a non-empty stream name whose topology
fetch succeeds, an error is returned exactly when some per-shard call fails (a
cursor open fails, succeeds without a cursor, or a record fetch fails).  In that
case no response is returned; the shards before the failing shard `s` were each
opened and fetched successfully, the calls for `s` are the last ones made
(nothing is called for a later shard), and the error message contains the id of
`s`.  A call that returns no error has opened and fetched every shard of the
topology, in order.  Every call of the trace was answered by the client.  Read
from the side of the upstream: when it answers the shards before `s` with success
and `s` with a failure, the call returns the error of `s`, no response, and stops
there; when it answers every shard of the topology with success, the call returns
no error. -/
theorem LatestMessages_aborts_on_first_failing_shard (h : KinesisHandler)
    (inp : LatestMessagesInput) (desc : kinesis.DescribeStreamOutput)
    (hname : inp.StreamName ≠ "")
    (hdesc : h.client.DescribeStream [] ⟨some inp.StreamName⟩ = .ok desc) :
    ((h.LatestMessages (some inp)).err ≠ none ↔
        ∃ ev ∈ (h.LatestMessages (some inp)).trace, ev.shardFailure) ∧
    ((h.LatestMessages (some inp)).err ≠ none →
      (h.LatestMessages (some inp)).resp = none ∧
      ∃ (ps : List (kinesis.Shard × String × kinesis.GetRecordsOutput))
          (s : kinesis.Shard) (rest : List kinesis.Shard) (tail : List Event) (e : GoError),
        desc.StreamDescription.Shards = ps.map (·.1) ++ s :: rest ∧
        (h.LatestMessages (some inp)).trace =
          Event.describeStream ⟨some inp.StreamName⟩ (.ok desc) ::
            (ps.flatMap (okChunk inp.StreamName) ++ tail) ∧
        (∀ ev ∈ ps.flatMap (okChunk inp.StreamName), ¬ ev.shardFailure) ∧
        FailTail inp.StreamName s tail e ∧
        (h.LatestMessages (some inp)).err = some e ∧
        (aws.ToString s.ShardId).data <:+: e.msg.data) ∧
    ((h.LatestMessages (some inp)).err = none →
      ∃ ps : List (kinesis.Shard × String × kinesis.GetRecordsOutput),
        ps.map (·.1) = desc.StreamDescription.Shards ∧
        (h.LatestMessages (some inp)).trace =
          Event.describeStream ⟨some inp.StreamName⟩ (.ok desc) ::
            ps.flatMap (okChunk inp.StreamName)) ∧
    Faithful h.client (h.LatestMessages (some inp)).trace ∧
    (∀ (ps : List (kinesis.Shard × String × kinesis.GetRecordsOutput))
        (s : kinesis.Shard) (rest : List kinesis.Shard) (tail : List Event) (e : GoError),
      desc.StreamDescription.Shards = ps.map (·.1) ++ s :: rest →
      FailTail inp.StreamName s tail e →
      AnsweredFrom h.client [Event.describeStream ⟨some inp.StreamName⟩ (.ok desc)]
        (ps.flatMap (okChunk inp.StreamName) ++ tail) →
      (h.LatestMessages (some inp)).err = some e ∧
      (h.LatestMessages (some inp)).resp = none ∧
      (h.LatestMessages (some inp)).trace =
        Event.describeStream ⟨some inp.StreamName⟩ (.ok desc) ::
          (ps.flatMap (okChunk inp.StreamName) ++ tail) ∧
      (aws.ToString s.ShardId).data <:+: e.msg.data) ∧
    (∀ ps : List (kinesis.Shard × String × kinesis.GetRecordsOutput),
      desc.StreamDescription.Shards = ps.map (·.1) →
      AnsweredFrom h.client [Event.describeStream ⟨some inp.StreamName⟩ (.ok desc)]
        (ps.flatMap (okChunk inp.StreamName)) →
      (h.LatestMessages (some inp)).err = none ∧
      (h.LatestMessages (some inp)).trace =
        Event.describeStream ⟨some inp.StreamName⟩ (.ok desc) ::
          ps.flatMap (okChunk inp.StreamName)) := by
  refine ⟨?_, ?_, ?_, LatestMessages_faithful h (some inp), ?_, ?_⟩
  · obtain ⟨ps, tail, htr, hres⟩ := LatestMessages_run h inp desc hname hdesc
    rcases hres with ⟨-, htail, herr, -⟩ | ⟨s, rest, e, hss, hft, herr, hresp⟩
    · refine ⟨fun hc => absurd herr hc, ?_⟩
      rintro ⟨ev, hev, hfail⟩
      rw [htr, htail] at hev
      simp only [List.append_nil, List.mem_cons] at hev
      rcases hev with rfl | hev
      · exact absurd hfail (by simp [Event.shardFailure])
      · exact absurd hfail (chunk_events_succeed _ ps ev hev).1
    · refine ⟨fun _ => ?_, fun _ => by simp [herr]⟩
      obtain ⟨ev, hev, hfail⟩ := failTail_has_failure hft
      exact ⟨ev, by rw [htr]; simp [hev], hfail⟩
  · intro hne
    obtain ⟨ps, tail, htr, hres⟩ := LatestMessages_run h inp desc hname hdesc
    rcases hres with ⟨-, -, herr, -⟩ | ⟨s, rest, e, hss, hft, herr, hresp⟩
    · exact absurd herr hne
    · exact ⟨hresp, ps, s, rest, tail, e, hss, htr,
        fun ev hev => (chunk_events_succeed _ ps ev hev).1, hft, herr,
        failTail_names_shard hft⟩
  · intro hok
    obtain ⟨ps, hmap, htr, -⟩ := LatestMessages_success h inp desc hdesc hok
    exact ⟨ps, hmap, htr⟩
  · intro ps s rest tail e hss hft hans
    obtain ⟨herr, hresp, htr⟩ :=
      LatestMessages_served_then_fails h inp desc ps s rest tail e hname hdesc hss hft hans
    exact ⟨herr, hresp, htr, failTail_names_shard hft⟩
  · intro ps hss hans
    obtain ⟨herr, -, htr⟩ := LatestMessages_served h inp desc ps hname hdesc hss hans
    exact ⟨herr, htr⟩

/-- C2 on two clients: on `brokenHandler` the open of the second of three shards
fails, so the call stops after four upstream calls with the error of that shard
and no response; on `demoHandler` nothing fails, so all three shards are opened
and fetched. -/
theorem LatestMessages_aborts_on_first_failing_shard_witness :
    (((brokenHandler.LatestMessages (some ⟨"orders", 50⟩)).err ≠ none ↔
        ∃ ev ∈ (brokenHandler.LatestMessages (some ⟨"orders", 50⟩)).trace, ev.shardFailure) ∧
    ((brokenHandler.LatestMessages (some ⟨"orders", 50⟩)).err ≠ none →
      (brokenHandler.LatestMessages (some ⟨"orders", 50⟩)).resp = none ∧
      ∃ (ps : List (kinesis.Shard × String × kinesis.GetRecordsOutput))
          (s : kinesis.Shard) (rest : List kinesis.Shard) (tail : List Event) (e : GoError),
        demoShards = ps.map (·.1) ++ s :: rest ∧
        (brokenHandler.LatestMessages (some ⟨"orders", 50⟩)).trace =
          Event.describeStream ⟨some "orders"⟩
              (.ok ⟨⟨some "orders", some "arn:orders", "ACTIVE", some 24, demoShards, "NONE"⟩⟩) ::
            (ps.flatMap (okChunk "orders") ++ tail) ∧
        (∀ ev ∈ ps.flatMap (okChunk "orders"), ¬ ev.shardFailure) ∧
        FailTail "orders" s tail e ∧
        (brokenHandler.LatestMessages (some ⟨"orders", 50⟩)).err = some e ∧
        (aws.ToString s.ShardId).data <:+: e.msg.data)) ∧
    (brokenHandler.LatestMessages (some ⟨"orders", 50⟩)).err =
      some ⟨"get shard iterator failed for shard shardId-1: boom"⟩ ∧
    (brokenHandler.LatestMessages (some ⟨"orders", 50⟩)).resp = none ∧
    (brokenHandler.LatestMessages (some ⟨"orders", 50⟩)).trace.length = 4 ∧
    (∃ ps : List (kinesis.Shard × String × kinesis.GetRecordsOutput),
      ps.map (·.1) = demoShards ∧
      (demoHandler.LatestMessages (some ⟨"orders", 50⟩)).trace =
        Event.describeStream ⟨some "orders"⟩
            (.ok ⟨⟨some "orders", some "arn:orders", "ACTIVE", some 24, demoShards, "NONE"⟩⟩) ::
          ps.flatMap (okChunk "orders")) ∧
    (demoHandler.LatestMessages (some ⟨"orders", 50⟩)).trace.length = 7 ∧
    ((brokenHandler.LatestMessages (some ⟨"orders", 50⟩)).err =
        some ⟨"get shard iterator failed for shard shardId-1: boom"⟩ ∧
      (brokenHandler.LatestMessages (some ⟨"orders", 50⟩)).resp = none ∧
      (brokenHandler.LatestMessages (some ⟨"orders", 50⟩)).trace =
        Event.describeStream ⟨some "orders"⟩
            (.ok ⟨⟨some "orders", some "arn:orders", "ACTIVE", some 24, demoShards, "NONE"⟩⟩) ::
          (([((⟨some "shardId-0"⟩ : kinesis.Shard), "it-shardId-0",
              (⟨[demoRecord "k1", demoRecord "k2"], some "next"⟩ : kinesis.GetRecordsOutput))]
              : List (kinesis.Shard × String × kinesis.GetRecordsOutput)).flatMap
              (okChunk "orders") ++
            [Event.getShardIterator (openRequest "orders" ⟨some "shardId-1"⟩)
              (.error ⟨"boom"⟩)]) ∧
      (aws.ToString (⟨some "shardId-1"⟩ : kinesis.Shard).ShardId).data <:+:
        ("get shard iterator failed for shard shardId-1: boom" : String).data) :=
  ⟨⟨(LatestMessages_aborts_on_first_failing_shard brokenHandler ⟨"orders", 50⟩
      ⟨⟨some "orders", some "arn:orders", "ACTIVE", some 24, demoShards, "NONE"⟩⟩
      (by decide) rfl).1,
    (LatestMessages_aborts_on_first_failing_shard brokenHandler ⟨"orders", 50⟩
      ⟨⟨some "orders", some "arn:orders", "ACTIVE", some 24, demoShards, "NONE"⟩⟩
      (by decide) rfl).2.1⟩,
   by decide, rfl, rfl,
   (LatestMessages_aborts_on_first_failing_shard demoHandler ⟨"orders", 50⟩
      ⟨⟨some "orders", some "arn:orders", "ACTIVE", some 24, demoShards, "NONE"⟩⟩
      (by decide) rfl).2.2.1 rfl,
   rfl,
   (LatestMessages_aborts_on_first_failing_shard brokenHandler ⟨"orders", 50⟩
      ⟨⟨some "orders", some "arn:orders", "ACTIVE", some 24, demoShards, "NONE"⟩⟩
      (by decide) rfl).2.2.2.2.1
      [(⟨some "shardId-0"⟩, "it-shardId-0", ⟨[demoRecord "k1", demoRecord "k2"], some "next"⟩)]
      ⟨some "shardId-1"⟩ [⟨some "shardId-2"⟩]
      [Event.getShardIterator (openRequest "orders" ⟨some "shardId-1"⟩) (.error ⟨"boom"⟩)]
      ⟨"get shard iterator failed for shard shardId-1: boom"⟩
      rfl (Or.inl ⟨⟨"boom"⟩, rfl, by decide⟩) ⟨rfl, rfl, rfl, trivial⟩⟩

/-- C10: in every `LatestMessages` call whose topology fetch succeeds, the shards
processed are the first `m` of the topology; the cursor opens made are exactly
one for each of them, in topology order, each with the requested stream name,
the shard's id and the `TRIM_HORIZON` policy; every record fetch comes right
after a cursor open that returned a cursor and passes that cursor (never the
successor cursor of an earlier fetch), so there is at most one fetch per shard;
no other call is made after the topology fetch; and a call that returns no error
makes exactly one open and one fetch for every shard. -/
theorem LatestMessages_one_open_one_fetch_per_shard (h : KinesisHandler)
    (inp : LatestMessagesInput) (desc : kinesis.DescribeStreamOutput)
    (hname : inp.StreamName ≠ "")
    (hdesc : h.client.DescribeStream [] ⟨some inp.StreamName⟩ = .ok desc) :
    ∃ m, m ≤ desc.StreamDescription.Shards.length ∧
      (h.LatestMessages (some inp)).trace.filterMap Event.openInput? =
        (desc.StreamDescription.Shards.take m).map (fun s =>
          (⟨some inp.StreamName, s.ShardId, "TRIM_HORIZON"⟩ : kinesis.GetShardIteratorInput)) ∧
      (h.LatestMessages (some inp)).trace.filterMap Event.fetchInput? =
        ((h.LatestMessages (some inp)).trace.filterMap Event.openedIterator?).map
          (fun it => (⟨some it⟩ : kinesis.GetRecordsInput)) ∧
      ((h.LatestMessages (some inp)).trace.filterMap Event.fetchInput?).length ≤ m ∧
      FetchUsesOpenedCursor (h.LatestMessages (some inp)).trace ∧
      (h.LatestMessages (some inp)).trace.length =
        1 + m + ((h.LatestMessages (some inp)).trace.filterMap Event.fetchInput?).length ∧
      Faithful h.client (h.LatestMessages (some inp)).trace ∧
      ((h.LatestMessages (some inp)).err = none →
        m = desc.StreamDescription.Shards.length ∧
        ((h.LatestMessages (some inp)).trace.filterMap Event.fetchInput?).length =
          desc.StreamDescription.Shards.length) := by
  obtain ⟨ps, tail, htr, hres⟩ := LatestMessages_run h inp desc hname hdesc
  have hfaith := LatestMessages_faithful h (some inp)
  rcases hres with ⟨hmap, htail, herr, -⟩ | ⟨s, rest, e, hss, hft, herr, -⟩
  · have hlen : ps.length = desc.StreamDescription.Shards.length := by
      rw [← hmap, List.length_map]
    subst htail
    refine ⟨desc.StreamDescription.Shards.length, le_refl _, ?_, ?_, ?_, ?_, ?_, hfaith, ?_⟩
    · rw [htr]
      simp only [List.append_nil, List.filterMap_cons, Event.openInput?, opens_chunks,
        List.take_length, hmap]
      rfl
    · rw [htr]
      simp [Event.fetchInput?, Event.openedIterator?, fetches_chunks, iterators_chunks]
    · rw [htr]
      simp [Event.fetchInput?, fetches_chunks, hlen]
    · rw [htr]
      exact fetchUsesOpenedCursor_cons rfl
        (fetchUsesOpenedCursor_chunks _ ps fetchUsesOpenedCursor_nil)
    · rw [htr]
      simp only [List.append_nil, List.length_cons, length_chunks, List.filterMap_cons,
        Event.fetchInput?, fetches_chunks, List.length_map, hlen]
      omega
    · intro _
      refine ⟨rfl, ?_⟩
      rw [htr]
      simp [Event.fetchInput?, fetches_chunks, hlen]
  · obtain ⟨hopen, hfetch, htl⟩ := failTail_calls hft
    have hlen : desc.StreamDescription.Shards.length = ps.length + 1 + rest.length := by
      rw [hss]
      simp
      omega
    have htake : desc.StreamDescription.Shards.take (ps.length + 1) = ps.map (·.1) ++ [s] := by
      rw [hss]
      have hlen1 : ps.length + 1 = (ps.map (·.1) ++ [s]).length := by simp
      have happ : ps.map (·.1) ++ s :: rest = (ps.map (·.1) ++ [s]) ++ rest := by simp
      rw [hlen1, happ]
      exact List.take_left _ _
    have hfl : ((h.LatestMessages (some inp)).trace.filterMap Event.fetchInput?).length =
        ps.length + (tail.filterMap Event.fetchInput?).length := by
      rw [htr]
      simp [Event.fetchInput?, fetches_chunks]
    have htl1 : (tail.filterMap Event.fetchInput?).length ≤ 1 := by
      rcases hft with ⟨ue, rfl, -⟩ | ⟨rfl, -⟩ | ⟨it, ue, rfl, -⟩ <;> simp [Event.fetchInput?]
    refine ⟨ps.length + 1, by omega, ?_, ?_, by omega, ?_, ?_, hfaith, ?_⟩
    · rw [htr, htake]
      simp only [List.filterMap_cons, Event.openInput?, List.filterMap_append, opens_chunks,
        hopen, List.map_append, List.map_map, List.map_cons, List.map_nil]
      rfl
    · rw [htr]
      simp [Event.fetchInput?, Event.openedIterator?, fetches_chunks, iterators_chunks, hfetch]
    · rw [htr]
      exact fetchUsesOpenedCursor_cons rfl
        (fetchUsesOpenedCursor_chunks _ ps (fetchUsesOpenedCursor_failTail hft))
    · rw [hfl, htr]
      simp only [List.length_cons, List.length_append, length_chunks, htl]
      omega
    · intro hnone
      rw [herr] at hnone
      cases hnone

theorem LatestMessages_one_open_one_fetch_per_shard_witness :
    (∃ m, m ≤ demoShards.length ∧
      (demoHandler.LatestMessages (some ⟨"orders", 50⟩)).trace.filterMap Event.openInput? =
        (demoShards.take m).map (fun s =>
          (⟨some "orders", s.ShardId, "TRIM_HORIZON"⟩ : kinesis.GetShardIteratorInput)) ∧
      (demoHandler.LatestMessages (some ⟨"orders", 50⟩)).trace.filterMap Event.fetchInput? =
        ((demoHandler.LatestMessages (some ⟨"orders", 50⟩)).trace.filterMap
          Event.openedIterator?).map (fun it => (⟨some it⟩ : kinesis.GetRecordsInput)) ∧
      ((demoHandler.LatestMessages (some ⟨"orders", 50⟩)).trace.filterMap
        Event.fetchInput?).length ≤ m ∧
      FetchUsesOpenedCursor (demoHandler.LatestMessages (some ⟨"orders", 50⟩)).trace ∧
      (demoHandler.LatestMessages (some ⟨"orders", 50⟩)).trace.length =
        1 + m + ((demoHandler.LatestMessages (some ⟨"orders", 50⟩)).trace.filterMap
          Event.fetchInput?).length ∧
      Faithful demoHandler.client (demoHandler.LatestMessages (some ⟨"orders", 50⟩)).trace ∧
      ((demoHandler.LatestMessages (some ⟨"orders", 50⟩)).err = none →
        m = demoShards.length ∧
        ((demoHandler.LatestMessages (some ⟨"orders", 50⟩)).trace.filterMap
          Event.fetchInput?).length = demoShards.length)) ∧
    (demoHandler.LatestMessages (some ⟨"orders", 50⟩)).trace.filterMap Event.fetchInput? =
      [⟨some "it-shardId-0"⟩, ⟨some "it-shardId-1"⟩, ⟨some "it-shardId-2"⟩] :=
  ⟨LatestMessages_one_open_one_fetch_per_shard demoHandler ⟨"orders", 50⟩
    ⟨⟨some "orders", some "arn:orders", "ACTIVE", some 24, demoShards, "NONE"⟩⟩
    (by decide) rfl, by decide⟩

/-- C7: when the upstream serves the pages `p_1 .. p_n` (`n ≥ 1`), every page but
the last with a next token and the last without, `ListStreams` returns (any fuel
of at least `n` iterations is enough) after exactly `n` calls, the first without
a token and each later one with the token of the page before; its streams are the
concatenation of the pages' names in page order and its count is their number.
When instead the call after the pages `p_1 .. p_k` fails, `ListStreams` returns
that error and no response. -/
theorem ListStreams_concatenates_pages (h : KinesisHandler) :
    (∀ (pages : List kinesis.ListStreamsOutput) (fuel : Nat), pages ≠ [] →
      Paginates h.client [] ⟨none⟩ pages none → pages.length ≤ fuel →
      ∃ R, h.ListStreams fuel = some R ∧
        R.resp = some (Response.streams (pages.flatMap (·.StreamNames))
          ((pages.flatMap (·.StreamNames)).length : Nat)) ∧
        R.err = none ∧
        R.trace = pageEvents ⟨none⟩ pages none ∧
        R.trace.length = pages.length ∧
        R.trace.filterMap Event.listInput? =
          ⟨none⟩ :: pages.dropLast.map (fun p => (⟨p.NextToken⟩ : kinesis.ListStreamsInput))) ∧
    (∀ (pages : List kinesis.ListStreamsOutput) (e : GoError) (fuel : Nat),
      Paginates h.client [] ⟨none⟩ pages (some e) → pages.length + 1 ≤ fuel →
      ∃ R, h.ListStreams fuel = some R ∧ R.resp = none ∧ R.err = some e ∧
        R.trace = pageEvents ⟨none⟩ pages (some e)) := by
  constructor
  · intro pages fuel hne hpag hfuel
    have hrun := listStreamsLoop_run h pages none fuel [] ⟨none⟩ [] hpag (by simpa using hfuel)
    refine ⟨_, hrun, by simp, rfl, by simp, ?_, ?_⟩
    · simp [length_pageEvents]
    · simpa using listInputs_pageEvents pages ⟨none⟩ hne
  · intro pages e fuel hpag hfuel
    have hrun := listStreamsLoop_run h pages (some e) fuel [] ⟨none⟩ [] hpag (by simpa using hfuel)
    exact ⟨_, hrun, rfl, rfl, by simp⟩

theorem ListStreams_concatenates_pages_witness :
    (∃ R, demoHandler.ListStreams 3 = some R ∧
        R.resp = some (Response.streams
          (([⟨["alpha", "beta"], some "t1"⟩, ⟨["gamma"], some "t2"⟩,
            ⟨["delta", "epsilon"], none⟩] : List kinesis.ListStreamsOutput).flatMap
              (·.StreamNames))
          ((([⟨["alpha", "beta"], some "t1"⟩, ⟨["gamma"], some "t2"⟩,
            ⟨["delta", "epsilon"], none⟩] : List kinesis.ListStreamsOutput).flatMap
              (·.StreamNames)).length : Nat)) ∧
        R.err = none ∧
        R.trace = pageEvents ⟨none⟩ [⟨["alpha", "beta"], some "t1"⟩, ⟨["gamma"], some "t2"⟩,
            ⟨["delta", "epsilon"], none⟩] none ∧
        R.trace.length = 3 ∧
        R.trace.filterMap Event.listInput? = [⟨none⟩, ⟨some "t1"⟩, ⟨some "t2"⟩]) ∧
    (∃ R, brokenHandler.ListStreams 2 = some R ∧ R.resp = none ∧
        R.err = some ⟨"throttled"⟩ ∧
        R.trace = pageEvents ⟨none⟩ [⟨["alpha", "beta"], some "t1"⟩] (some ⟨"throttled"⟩)) :=
  ⟨(ListStreams_concatenates_pages demoHandler).1
      [⟨["alpha", "beta"], some "t1"⟩, ⟨["gamma"], some "t2"⟩, ⟨["delta", "epsilon"], none⟩] 3
      (by simp)
      ⟨rfl, Or.inr ⟨"t1", rfl, rfl, Or.inr ⟨"t2", rfl, rfl, Or.inl ⟨rfl, rfl, rfl⟩⟩⟩⟩
      (le_refl _),
    (ListStreams_concatenates_pages brokenHandler).2
      [⟨["alpha", "beta"], some "t1"⟩] ⟨"throttled"⟩ 2
      ⟨rfl, Or.inr ⟨"t1", rfl, ⟨"throttled"⟩, rfl, rfl⟩⟩ (le_refl _)⟩

/-- C8, as the code has it: when an upstream call made by `ListStreams`,
`DeleteStream`, `DescribeStream` or `PublishMessage`, or the topology fetch of
`LatestMessages`, fails, the handler returns exactly the upstream error; when a
cursor open or a record fetch of `LatestMessages` fails, the handler returns an
error whose message is `get shard iterator failed for shard <id>: ` or
`get records failed for shard <id>: ` followed by the upstream message, where
`<id>` is the shard id of the cursor open (for a fetch, of the open right before
it); and when a cursor open succeeds without a cursor the message is
`missing shard iterator for shard <id>`.  The first six parts read this off the
calls the handler made.  The last six start from the upstream: whenever the
upstream fails a call that the handler has to make (a page of the listing after
the pages before it were served, the delete, the describe, the put, the topology
fetch, or the open or fetch of a shard after the shards before it were served),
the handler does return, with that error and no response. -/
theorem upstream_error_returned_or_wrapped (h : KinesisHandler) (newV4 : String) :
    (∀ fuel R ev e, h.ListStreams fuel = some R → ev ∈ R.trace →
      ev.upstreamError? = some e → R.err = some e) ∧
    (∀ inp ev e, ev ∈ (h.DeleteStream inp).trace → ev.upstreamError? = some e →
      (h.DeleteStream inp).err = some e) ∧
    (∀ inp ev e, ev ∈ (h.DescribeStream inp).trace → ev.upstreamError? = some e →
      (h.DescribeStream inp).err = some e) ∧
    (∀ inp ev e, ev ∈ (h.PublishMessage newV4 inp).trace → ev.upstreamError? = some e →
      (h.PublishMessage newV4 inp).err = some e) ∧
    (∀ inp ev e, ev ∈ (h.LatestMessages inp).trace → ev.upstreamError? = some e →
      match ev with
      | Event.describeStream _ _ => (h.LatestMessages inp).err = some e
      | Event.getShardIterator oi _ =>
        (h.LatestMessages inp).err = some
          ⟨"get shard iterator failed for shard " ++ aws.ToString oi.ShardId ++ ": " ++ e.msg⟩
      | Event.getRecords fi out =>
        ∃ pre oi oout,
          (h.LatestMessages inp).trace =
            pre ++ [Event.getShardIterator oi oout, Event.getRecords fi out] ∧
          (h.LatestMessages inp).err = some
            ⟨"get records failed for shard " ++ aws.ToString oi.ShardId ++ ": " ++ e.msg⟩
      | _ => False) ∧
    (∀ inp oi, Event.getShardIterator oi (.ok ⟨none⟩) ∈ (h.LatestMessages inp).trace →
      (h.LatestMessages inp).err = some
        ⟨"missing shard iterator for shard " ++ aws.ToString oi.ShardId⟩) ∧
    (∀ (pages : List kinesis.ListStreamsOutput) (e : GoError) (fuel : Nat),
      Paginates h.client [] ⟨none⟩ pages (some e) → pages.length + 1 ≤ fuel →
      ∃ R, h.ListStreams fuel = some R ∧ R.err = some e ∧ R.resp = none) ∧
    (∀ (i : DeleteStreamInput) (e : GoError), i.StreamName ≠ "" →
      h.client.DeleteStream [] ⟨some i.StreamName⟩ = .error e →
      (h.DeleteStream (some i)).err = some e ∧ (h.DeleteStream (some i)).resp = none) ∧
    (∀ (i : DescribeStreamInput) (e : GoError), i.StreamName ≠ "" →
      h.client.DescribeStream [] ⟨some i.StreamName⟩ = .error e →
      (h.DescribeStream (some i)).err = some e ∧ (h.DescribeStream (some i)).resp = none) ∧
    (∀ (i : PublishMessageInput) (e : GoError), i.StreamARN ≠ "" → i.Data ≠ "" →
      h.client.PutRecord []
        ⟨some i.StreamARN, some (if i.PartitionKey = "" then newV4 else i.PartitionKey),
          i.Data⟩ = .error e →
      (h.PublishMessage newV4 (some i)).err = some e ∧
        (h.PublishMessage newV4 (some i)).resp = none) ∧
    (∀ (i : LatestMessagesInput) (e : GoError), i.StreamName ≠ "" →
      h.client.DescribeStream [] ⟨some i.StreamName⟩ = .error e →
      (h.LatestMessages (some i)).err = some e ∧ (h.LatestMessages (some i)).resp = none) ∧
    (∀ (i : LatestMessagesInput) (desc : kinesis.DescribeStreamOutput)
        (ps : List (kinesis.Shard × String × kinesis.GetRecordsOutput))
        (s : kinesis.Shard) (rest : List kinesis.Shard),
      i.StreamName ≠ "" →
      h.client.DescribeStream [] ⟨some i.StreamName⟩ = .ok desc →
      desc.StreamDescription.Shards = ps.map (·.1) ++ s :: rest →
      AnsweredFrom h.client [Event.describeStream ⟨some i.StreamName⟩ (.ok desc)]
        (ps.flatMap (okChunk i.StreamName)) →
      (∀ ue, h.client.GetShardIterator
          (Event.describeStream ⟨some i.StreamName⟩ (.ok desc) ::
            ps.flatMap (okChunk i.StreamName))
          ⟨some i.StreamName, s.ShardId, "TRIM_HORIZON"⟩ = .error ue →
        (h.LatestMessages (some i)).err = some
          ⟨"get shard iterator failed for shard " ++ aws.ToString s.ShardId ++ ": " ++ ue.msg⟩ ∧
        (h.LatestMessages (some i)).resp = none) ∧
      (h.client.GetShardIterator
          (Event.describeStream ⟨some i.StreamName⟩ (.ok desc) ::
            ps.flatMap (okChunk i.StreamName))
          ⟨some i.StreamName, s.ShardId, "TRIM_HORIZON"⟩ = .ok ⟨none⟩ →
        (h.LatestMessages (some i)).err = some
          ⟨"missing shard iterator for shard " ++ aws.ToString s.ShardId⟩ ∧
        (h.LatestMessages (some i)).resp = none) ∧
      (∀ it ue, h.client.GetShardIterator
          (Event.describeStream ⟨some i.StreamName⟩ (.ok desc) ::
            ps.flatMap (okChunk i.StreamName))
          ⟨some i.StreamName, s.ShardId, "TRIM_HORIZON"⟩ = .ok ⟨some it⟩ →
        h.client.GetRecords
          (Event.describeStream ⟨some i.StreamName⟩ (.ok desc) ::
            (ps.flatMap (okChunk i.StreamName) ++
              [Event.getShardIterator ⟨some i.StreamName, s.ShardId, "TRIM_HORIZON"⟩
                (.ok ⟨some it⟩)]))
          ⟨some it⟩ = .error ue →
        (h.LatestMessages (some i)).err = some
          ⟨"get records failed for shard " ++ aws.ToString s.ShardId ++ ": " ++ ue.msg⟩ ∧
        (h.LatestMessages (some i)).resp = none)) := by
  refine ⟨?_, ?_, ?_, ?_, ?_, ?_, ?_, ?_, ?_, ?_, ?_, ?_⟩
  · intro fuel R ev e hrun hev hue
    exact (listStreamsLoop_error h fuel [] ⟨none⟩ [] R (by simp) hrun ev hev e hue).1
  · intro inp ev e hev hue
    cases inp with
    | none => simp [DeleteStream] at hev
    | some i =>
      by_cases hn : i.StreamName = ""
      · simp [DeleteStream, hn] at hev
      · simp only [DeleteStream, hn, if_false] at hev ⊢
        generalize h.client.DeleteStream [] ⟨some i.StreamName⟩ = out at hev ⊢
        cases out with
        | error err =>
          simp only [List.mem_singleton] at hev
          subst hev
          simpa [Event.upstreamError?] using hue
        | ok o =>
          simp only [List.mem_singleton] at hev
          subst hev
          simp [Event.upstreamError?] at hue
  · intro inp ev e hev hue
    cases inp with
    | none => simp [DescribeStream] at hev
    | some i =>
      by_cases hn : i.StreamName = ""
      · simp [DescribeStream, hn] at hev
      · simp only [DescribeStream, hn, if_false] at hev ⊢
        generalize h.client.DescribeStream [] ⟨some i.StreamName⟩ = out at hev ⊢
        cases out with
        | error err =>
          simp only [List.mem_singleton] at hev
          subst hev
          simpa [Event.upstreamError?] using hue
        | ok o =>
          simp only [List.mem_singleton] at hev
          subst hev
          simp [Event.upstreamError?] at hue
  · intro inp ev e hev hue
    cases inp with
    | none => simp [PublishMessage] at hev
    | some i =>
      by_cases hn : i.StreamARN = "" ∨ i.Data = ""
      · simp [PublishMessage, hn] at hev
      · simp only [PublishMessage, hn, if_false] at hev ⊢
        generalize h.client.PutRecord [] _ = out at hev ⊢
        cases out with
        | error err =>
          simp only [List.mem_singleton] at hev
          subst hev
          simpa [Event.upstreamError?] using hue
        | ok o =>
          simp only [List.mem_singleton] at hev
          subst hev
          simp [Event.upstreamError?] at hue
  · intro inp ev e hev hue
    cases inp with
    | none => simp [LatestMessages] at hev
    | some i =>
      by_cases hn : i.StreamName = ""
      · simp [LatestMessages, hn] at hev
      · cases hd : h.client.DescribeStream [] ⟨some i.StreamName⟩ with
        | error err =>
          simp only [LatestMessages, hn, if_false, hd, List.mem_singleton] at hev ⊢
          subst hev
          simpa [Event.upstreamError?] using hue
        | ok desc =>
          obtain ⟨ps, tail, htr, hres⟩ := LatestMessages_run h i desc hn hd
          rw [htr] at hev
          simp only [List.mem_cons, List.mem_append] at hev
          rcases hev with rfl | hev | hev
          · simp [Event.upstreamError?] at hue
          · rw [(chunk_events_succeed _ ps ev hev).2] at hue
            cases hue
          · rcases hres with ⟨-, htail, -, -⟩ | ⟨s, rest, e1, -, hft, herr, -⟩
            · subst htail
              cases hev
            · rcases hft with ⟨ue, rfl, rfl⟩ | ⟨rfl, -⟩ | ⟨it, ue, rfl, rfl⟩
              · simp only [List.mem_singleton] at hev
                subst hev
                simp only [Event.upstreamError?, Option.some.injEq] at hue
                subst hue
                simpa [openRequest] using herr
              · simp only [List.mem_singleton] at hev
                subst hev
                simp [Event.upstreamError?] at hue
              · simp only [List.mem_cons, List.mem_singleton, List.not_mem_nil, or_false] at hev
                rcases hev with rfl | rfl
                · simp [Event.upstreamError?] at hue
                · simp only [Event.upstreamError?, Option.some.injEq] at hue
                  subst hue
                  refine ⟨Event.describeStream ⟨some i.StreamName⟩ (.ok desc) ::
                    ps.flatMap (okChunk i.StreamName), openRequest i.StreamName s,
                    .ok ⟨some it⟩, ?_, ?_⟩
                  · rw [htr]
                    simp
                  · simpa [openRequest] using herr
  · intro inp oi hev
    cases inp with
    | none => simp [LatestMessages] at hev
    | some i =>
      by_cases hn : i.StreamName = ""
      · simp [LatestMessages, hn] at hev
      · cases hd : h.client.DescribeStream [] ⟨some i.StreamName⟩ with
        | error err => simp [LatestMessages, hn, hd] at hev
        | ok desc =>
          obtain ⟨ps, tail, htr, hres⟩ := LatestMessages_run h i desc hn hd
          rw [htr] at hev
          simp only [List.mem_cons, List.mem_append] at hev
          rcases hev with hev | hev | hev
          · cases hev
          · exact absurd rfl (chunk_events_succeed _ ps _ hev).1
          · rcases hres with ⟨-, htail, -, -⟩ | ⟨s, rest, e1, -, hft, herr, -⟩
            · subst htail
              cases hev
            · rcases hft with ⟨ue, rfl, rfl⟩ | ⟨rfl, rfl⟩ | ⟨it, ue, rfl, rfl⟩
              · simp at hev
              · simp only [List.mem_singleton, Event.getShardIterator.injEq] at hev
                rw [hev.1]
                simpa [openRequest] using herr
              · simp at hev

  · intro pages e fuel hpag hfuel
    have hrun := listStreamsLoop_run h pages (some e) fuel [] ⟨none⟩ [] hpag (by simpa using hfuel)
    exact ⟨_, hrun, rfl, rfl⟩
  · intro i e hn hcall
    simp [DeleteStream, hn, hcall]
  · intro i e hn hcall
    simp [DescribeStream, hn, hcall]
  · intro i e h1 h2 hcall
    simp only [PublishMessage, h1, h2, or_self, if_false]
    rw [hcall]
    exact ⟨rfl, rfl⟩
  · intro i e hn hcall
    simp [LatestMessages, hn, hcall]
  · intro i desc ps s rest hn hd hss hans
    refine ⟨?_, ?_, ?_⟩
    · intro ue hopen
      have hft : FailTail i.StreamName s
          [Event.getShardIterator (openRequest i.StreamName s) (.error ue)]
          ⟨"get shard iterator failed for shard " ++ aws.ToString s.ShardId ++ ": " ++ ue.msg⟩ :=
        Or.inl ⟨ue, rfl, rfl⟩
      have := LatestMessages_served_then_fails h i desc ps s rest _ _ hn hd hss hft
        (answeredFrom_append _ _ _ _ hans ⟨by simpa [Event.answeredBy, openRequest] using hopen,
          trivial⟩)
      exact ⟨this.1, this.2.1⟩
    · intro hopen
      have hft : FailTail i.StreamName s
          [Event.getShardIterator (openRequest i.StreamName s) (.ok ⟨none⟩)]
          ⟨"missing shard iterator for shard " ++ aws.ToString s.ShardId⟩ :=
        Or.inr (Or.inl ⟨rfl, rfl⟩)
      have := LatestMessages_served_then_fails h i desc ps s rest _ _ hn hd hss hft
        (answeredFrom_append _ _ _ _ hans ⟨by simpa [Event.answeredBy, openRequest] using hopen,
          trivial⟩)
      exact ⟨this.1, this.2.1⟩
    · intro it ue hopen hfetch
      have hft : FailTail i.StreamName s
          [Event.getShardIterator (openRequest i.StreamName s) (.ok ⟨some it⟩),
            Event.getRecords ⟨some it⟩ (.error ue)]
          ⟨"get records failed for shard " ++ aws.ToString s.ShardId ++ ": " ++ ue.msg⟩ :=
        Or.inr (Or.inr ⟨it, ue, rfl, rfl⟩)
      have := LatestMessages_served_then_fails h i desc ps s rest _ _ hn hd hss hft
        (answeredFrom_append _ _ _ _ hans
          ⟨by simpa [Event.answeredBy, openRequest] using hopen,
            by simpa [Event.answeredBy, openRequest] using hfetch, trivial⟩)
      exact ⟨this.1, this.2.1⟩

/-- The nonexistent stream of C8: the describe call fails upstream, and both
`DescribeStream` and `LatestMessages` hand the upstream error back as it is, with
no response. -/
theorem upstream_error_returned_or_wrapped_witness :
    ((notFoundHandler.DescribeStream (some ⟨"ghost"⟩)).err =
        some ⟨"ResourceNotFoundException: stream ghost not found"⟩ ∧
      (notFoundHandler.DescribeStream (some ⟨"ghost"⟩)).resp = none) ∧
    ((notFoundHandler.LatestMessages (some ⟨"ghost", 0⟩)).err =
        some ⟨"ResourceNotFoundException: stream ghost not found"⟩ ∧
      (notFoundHandler.LatestMessages (some ⟨"ghost", 0⟩)).resp = none) ∧
    ((brokenHandler.LatestMessages (some ⟨"orders", 50⟩)).err = some
        ⟨"get shard iterator failed for shard " ++
          aws.ToString (⟨some "shardId-1"⟩ : kinesis.Shard).ShardId ++ ": " ++
          (⟨"boom"⟩ : GoError).msg⟩ ∧
      (brokenHandler.LatestMessages (some ⟨"orders", 50⟩)).resp = none) :=
  ⟨(upstream_error_returned_or_wrapped notFoundHandler "generated").2.2.2.2.2.2.2.2.1
      ⟨"ghost"⟩ ⟨"ResourceNotFoundException: stream ghost not found"⟩ (by decide) rfl,
    (upstream_error_returned_or_wrapped notFoundHandler "generated").2.2.2.2.2.2.2.2.2.2.1
      ⟨"ghost", 0⟩ ⟨"ResourceNotFoundException: stream ghost not found"⟩ (by decide) rfl,
    ((upstream_error_returned_or_wrapped brokenHandler "generated").2.2.2.2.2.2.2.2.2.2.2
      ⟨"orders", 50⟩
      ⟨⟨some "orders", some "arn:orders", "ACTIVE", some 24, demoShards, "NONE"⟩⟩
      [(⟨some "shardId-0"⟩, "it-shardId-0", ⟨[demoRecord "k1", demoRecord "k2"], some "next"⟩)]
      ⟨some "shardId-1"⟩ [⟨some "shardId-2"⟩] (by decide) rfl rfl
      ⟨rfl, rfl, trivial⟩).1 ⟨"boom"⟩ rfl⟩

/-- C8 as stated fails: on `brokenHandler` the cursor open of the second shard
fails upstream with the message `boom`, and `LatestMessages` returns an error
whose message is not `boom`. -/
theorem LatestMessages_rewrites_upstream_message :
    (brokenHandler.LatestMessages (some ⟨"orders", 50⟩)).trace =
      [Event.describeStream ⟨some "orders"⟩
          (.ok ⟨⟨some "orders", some "arn:orders", "ACTIVE", some 24, demoShards, "NONE"⟩⟩),
        Event.getShardIterator ⟨some "orders", some "shardId-0", "TRIM_HORIZON"⟩
          (.ok ⟨some "it-shardId-0"⟩),
        Event.getRecords ⟨some "it-shardId-0"⟩
          (.ok ⟨[demoRecord "k1", demoRecord "k2"], some "next"⟩),
        Event.getShardIterator ⟨some "orders", some "shardId-1", "TRIM_HORIZON"⟩
          (.error ⟨"boom"⟩)] ∧
    (Event.getShardIterator ⟨some "orders", some "shardId-1", "TRIM_HORIZON"⟩
        (.error ⟨"boom"⟩)).upstreamError? = some ⟨"boom"⟩ ∧
    (brokenHandler.LatestMessages (some ⟨"orders", 50⟩)).err =
      some ⟨"get shard iterator failed for shard shardId-1: boom"⟩ ∧
    (brokenHandler.LatestMessages (some ⟨"orders", 50⟩)).err.map (·.msg) ≠ some "boom" :=
  ⟨rfl, rfl, by decide, by decide⟩

/-- C9: on `demoHandler`, a stream of three shards, every cursor that
`LatestMessages` requests is of type `TRIM_HORIZON`, none of type `LATEST`. -/
theorem LatestMessages_requests_trim_horizon :
    (demoHandler.LatestMessages (some ⟨"orders", 50⟩)).trace.filterMap Event.openInput? =
      [⟨some "orders", some "shardId-0", "TRIM_HORIZON"⟩,
       ⟨some "orders", some "shardId-1", "TRIM_HORIZON"⟩,
       ⟨some "orders", some "shardId-2", "TRIM_HORIZON"⟩] ∧
    ∀ oi ∈ (demoHandler.LatestMessages (some ⟨"orders", 50⟩)).trace.filterMap Event.openInput?,
      oi.ShardIteratorType ≠ "LATEST" :=
  ⟨by decide, by decide⟩

end KinesisHandler

end KinesisAdmin
